import Mathlib

/-!
Verification of the environment discovery/merge pipeline of
`src/client/pythonEnvironments/converter.ts`: the provider adapter
(`ConvertLocator`), the reducer (`PythonEnvsReducer` / `iterEnvsIterator`) and
the collision resolution (`resolveEnvCollision`, `sortEnvInfoByPriority`,
`getTopKind`, `checkIfFinishedAndNotify`).

Conventions of the embedding:
* `PythonEnvKind` is a string-valued enumeration at runtime, so kinds are
  embedded as `String`.
* JavaScript `undefined` is embedded as `Option.none` where the source can
  produce it (optional fields, out-of-range array reads, `envSources[0]` on an
  empty array).
* `Array.prototype.sort` sorts in place with a stable sort (ECMAScript 2019),
  so functions of the source that sort an operand's array return the
  post-mutation value of that operand alongside their result.
* The cooperative single-threaded scheduling of the source (all listener
  bodies and `resolveDifferencesInBackground` are synchronous: they contain no
  `await`) is embedded as a deterministic interpreter over a trace of upstream
  messages; each message (a primary-sequence value or a notification event) is
  processed atomically, exactly as the source processes it without any
  intervening suspension point.
-/

/-! ## Data model -/

/-- Progress stages of `ProgressReportStage` relevant to the converter:
`discoveryStarted` and `discoveryFinished` (the only stage the listener treats
specially is `discoveryFinished`; every other stage is forwarded verbatim, so
`started` also stands for the remaining intermediate stages). -/
inductive ProgressStage where
  | started
  | finished
  deriving DecidableEq, Repr

/-- The externally-shaped record (`EnvInfo` of `base/locator`): executable
path, environment root, and the externally declared kind identifiers. -/
structure EnvInfo where
  executablePath : String
  envPath : Option String
  envSources : List String
  deriving DecidableEq, Repr

/-- The internal raw record (`BasicEnvInfo`).  `kind` is an `Option` because
`ConvertLocator.convertToBasicEnv` reads `envSources[0]`, which is the
JavaScript `undefined` when the declared source list is empty. -/
structure BasicEnvInfo where
  executablePath : String
  envPath : Option String
  kind : Option String
  extensionId : String
  deriving DecidableEq, Repr

/-- The merged record (`CompositeEnvInfo`): raw fields plus the set of
reporting providers (`source`, optional in the source type, read through
`?? []`) and the set of all observed kinds. -/
structure CompositeEnvInfo where
  executablePath : String
  envPath : Option String
  kind : List String
  source : Option (List String)
  extensionId : String
  deriving DecidableEq, Repr

/-- Identity of a raw record: the (executablePath, envPath) pair. -/
def envIdB (e : BasicEnvInfo) : String × Option String :=
  (e.executablePath, e.envPath)

/-- Identity of a merged record: the (executablePath, envPath) pair. -/
def envIdC (e : CompositeEnvInfo) : String × Option String :=
  (e.executablePath, e.envPath)

/-- Modelled from the spec: `areSameEnv` (defined in
`base/info/env.ts`, which is not part of the source snapshot).  Per the spec,
identity for deduplication purposes is the (executablePath, envPath) pair. -/
def areSameEnv (a b : CompositeEnvInfo) : Bool :=
  a.executablePath == b.executablePath && a.envPath == b.envPath

/-- JavaScript `Array.prototype.findIndex`, returning `none` instead of -1. -/
def findIndex (p : α → Bool) : List α → Option Nat
  | [] => none
  | x :: xs => if p x then some 0 else (findIndex p xs).map (· + 1)

/-! ## Kind and provider orders (modelled from the spec) -/

/-- Modelled from the spec: the closed internal kind vocabulary (the
`PythonEnvKind` enumeration of `base/info`, not part of the source snapshot),
listed in the fixed priority order used by `sortKindFunction`: most
environment-manager-specific kinds first, generic interpreter discovery later,
`unknown` last.  The spec's scenario requires `venv` to outrank `system`. -/
def kindNamesByPriority : List String :=
  ["conda", "poetry", "pipenv", "pyenv", "venv", "virtualenv",
   "microsoft-store", "global-system", "system", "unknown"]

/-- Rank of a kind in the fixed order; identifiers outside the closed
vocabulary rank after everything (JavaScript comparison on a missing entry). -/
def kindRank (k : String) : Nat :=
  (findIndex (· == k) kindNamesByPriority).getD kindNamesByPriority.length

/-- Modelled from the spec: `sortKindFunction` of `base/info/envKind.ts` (not
part of the source snapshot): a comparator realising the fixed total order
over kinds; negative when the first argument is more preferred. -/
def sortKindFunction (a b : String) : Int :=
  (kindRank a : Int) - (kindRank b : Int)

/-- Rank extended to the JavaScript `undefined` produced by `getTopKind` on an
empty kind array; `undefined` ranks after every kind (modelling choice for a
corner no claim exercises). -/
def kindOptRank : Option String → Nat
  | some k => kindRank k
  | none => kindNamesByPriority.length + 1

/-- `sortKindFunction` as applied by `sortEnvInfoByPriority` to the possibly
`undefined` results of `getTopKind`. -/
def sortKindFunctionOpt (a b : Option String) : Int :=
  (kindOptRank a : Int) - (kindOptRank b : Int)

/-- Modelled from the spec: the fixed list of provider identifiers that can
assert stronger identity guarantees (used by `sortExtensionSource` of
`base/info/envKind.ts`, not part of the source snapshot). -/
def preferredExtensions : List String :=
  ["ms-python.python"]

/-- Rank of a provider identifier; unlisted providers tie after the listed
ones. -/
def extensionRank (s : String) : Nat :=
  (findIndex (· == s) preferredExtensions).getD preferredExtensions.length

/-- Modelled from the spec: `sortExtensionSource`: a comparator realising the
fixed order over provider identifiers. -/
def sortExtensionSource (a b : String) : Int :=
  (extensionRank a : Int) - (extensionRank b : Int)

/-! ## List helpers: lodash `union` and the stable JavaScript sort -/

/-- Dedupe keeping first occurrences, with an accumulator of already kept
values; `dedupAux [] l` is lodash `uniq l`. -/
def dedupAux (kept : List String) : List String → List String
  | [] => []
  | x :: xs =>
    if x ∈ kept then dedupAux kept xs
    else x :: dedupAux (x :: kept) xs

/-- lodash `union(a, b)`: unique values of the concatenation, in first-seen
order. -/
def lodashUnion2 (a b : List String) : List String :=
  dedupAux [] (a ++ b)

/-- lodash `union(a, b, c)`. -/
def lodashUnion3 (a b c : List String) : List String :=
  dedupAux [] (a ++ b ++ c)

/-- Insert an element into a list sorted by comparator `c`, before the first
element it does not strictly follow (the earlier element of a tie stays
first, as a stable sort requires). -/
def insertBy (c : α → α → Int) (x : α) : List α → List α
  | [] => [x]
  | y :: ys => if c x y ≤ 0 then x :: y :: ys else y :: insertBy c x ys

/-- Stable comparator sort, the behaviour `Array.prototype.sort` guarantees
since ECMAScript 2019. -/
def sortBy (c : α → α → Int) : List α → List α
  | [] => []
  | x :: xs => insertBy c x (sortBy c xs)

/-! ## Conversions -/

/-- `convertKind` of `converter.ts`: the body is
`return (source as unknown) as PythonEnvKind;` — a cast, which at runtime is
the identity on the underlying string. -/
def convertKind (source : String) : String :=
  source

/-- `ConvertLocator.convertToBasicEnv`: converts an external record, using
only the first declared kind (`envSources[0]`, the JavaScript `undefined` —
here `none` — when the list is empty) and stamping the provider's extension
id from the locator metadata. -/
def ConvertLocator.convertToBasicEnv (extensionId : String) (env : EnvInfo) :
    BasicEnvInfo :=
  { executablePath := env.executablePath
    envPath := env.envPath
    kind := env.envSources.head?.map convertKind
    extensionId := extensionId }

/-- Modelled from the spec: `convertBasicToComposite` of `base/locator.ts`
(not part of the source snapshot).  Per the spec, a raw record converts to a
merged record with `source` the singleton of its provider and `kind` the
singleton of its kind (empty when the kind is the JavaScript `undefined`). -/
def convertBasicToComposite (e : BasicEnvInfo) : CompositeEnvInfo :=
  { executablePath := e.executablePath
    envPath := e.envPath
    kind := e.kind.toList
    source := some [e.extensionId]
    extensionId := e.extensionId }

/-! ## Collision resolution -/

/-- `getTopKind` of `converter.ts`: `kinds.sort(sortKindFunction)[0]`.
`Array.prototype.sort` sorts the argument array in place, so the function
returns both the best kind (`none` for the JavaScript `undefined` on an empty
array) and the post-mutation value of the array. -/
def getTopKind (kinds : List String) : Option String × List String :=
  let sorted := sortBy sortKindFunction kinds
  (sorted.head?, sorted)

/-- `sortEnvInfoByPriority` of `converter.ts`, at the two-element instance
used by `resolveEnvCollision`: a stable sort of `[a, b]` under the comparator
"best kind first, then extension source".  Evaluating the comparator calls
`getTopKind` on both operands' kind arrays, sorting them in place; the result
is the sorted pair together with the post-mutation operands. -/
def sortEnvInfoByPriority (a b : CompositeEnvInfo) :
    (CompositeEnvInfo × CompositeEnvInfo) × CompositeEnvInfo × CompositeEnvInfo :=
  let ta := getTopKind a.kind
  let tb := getTopKind b.kind
  let a' := { a with kind := ta.2 }
  let b' := { b with kind := tb.2 }
  let kindDiff := sortKindFunctionOpt ta.1 tb.1
  let c := if kindDiff ≠ 0 then kindDiff else sortExtensionSource a.extensionId b.extensionId
  (if c ≤ 0 then (a', b') else (b', a'), a', b')

/-- `resolveEnvCollision` of `converter.ts`: pick the higher-priority operand
as base, deep-copy it (`cloneDeep`), then overwrite the copy's `source` with
the union of both operands' sources and its `kind` with the union of the
base's, the old record's and the new record's kinds.  Because the comparator
sorted both operands' kind arrays in place, the function returns
`(merged, post-call oldEnv, post-call newEnv)`. -/
def resolveEnvCollision (oldEnv newEnv : CompositeEnvInfo) :
    CompositeEnvInfo × CompositeEnvInfo × CompositeEnvInfo :=
  let s := sortEnvInfoByPriority oldEnv newEnv
  let env := s.1.1
  let old' := s.2.1
  let new' := s.2.2
  let merged :=
    { env with
      source := some (lodashUnion2 (old'.source.getD []) (new'.source.getD []))
      kind := lodashUnion3 env.kind old'.kind new'.kind }
  (merged, old', new')

/-! ## The reducer stage (`iterEnvsIterator` of `PythonEnvsReducer`)

The async generator and its `onUpdated` listener are embedded as a
deterministic interpreter over a trace of upstream messages.  All listener
bodies and `resolveDifferencesInBackground` are synchronous (they contain no
`await`), so each upstream message is handled atomically. -/

/-- An event delivered on the upstream notification channel
(`PythonEnvUpdatedEvent<BasicEnvInfo> | ProgressNotificationEvent`).  Both
`old` and `update` are optional in the source type. -/
inductive UpEvent where
  | progress (stage : ProgressStage)
  | update (index : Nat) (old : Option BasicEnvInfo) (upd : Option BasicEnvInfo)
  deriving DecidableEq, Repr

/-- One atomic upstream step seen by the reducer: either the primary sequence
produces a record, or the upstream notification channel fires an event. -/
inductive UpMsg where
  | yieldEnv (e : BasicEnvInfo)
  | notify (ev : UpEvent)
  deriving DecidableEq, Repr

/-- An event the reducer fires on its own notification channel. -/
inductive DownEvent where
  | progress (stage : ProgressStage)
  | update (index : Nat) (old : CompositeEnvInfo) (upd : CompositeEnvInfo)
  deriving DecidableEq, Repr

/-- Observable output of the reducer: a value yielded on its primary
sequence, an event delivered on its notification channel, or a
`traceVerbose` log of a dropped update (recorded by target index). -/
inductive ROut where
  | yieldPrim (e : CompositeEnvInfo)
  | fire (ev : DownEvent)
  | log (index : Nat)
  deriving DecidableEq, Repr

/-- Reducer state: the `seen` buffer, the completion tracker
`{done, pending}`, whether the upstream listener is still attached
(`listener.dispose()` not yet called), and whether the reducer's own
`didUpdate` emitter is still live (not yet disposed). -/
structure RState where
  seen : List CompositeEnvInfo
  done : Bool
  pending : Nat
  upAttached : Bool
  downOpen : Bool
  deriving DecidableEq, Repr

/-- `checkIfFinishedAndNotify` of the reducer: if all info has been received
and no background call is pending, fire `discoveryFinished` and dispose the
emitter.  A fire on an already disposed emitter delivers nothing. -/
def checkIfFinishedAndNotify (st : RState) : RState × List ROut :=
  if st.done && st.pending == 0 then
    ({ st with downOpen := false },
     if st.downOpen then [ROut.fire (DownEvent.progress ProgressStage.finished)] else [])
  else (st, [])

/-- The error message of the reducer's listener for an `undefined` update. -/
def undefinedUpdateMsg : String :=
  "Unsupported behavior: `undefined` environment updates are not supported from downstream locators in reducer"

/-- `resolveDifferencesInBackground` of `converter.ts`.  The body is
synchronous: bump `pending`, read the buffer entry, merge (which sorts the
aliased kind arrays in place, so the buffer entry becomes the post-call
`oldEnv` before the `isEqual` comparison), replace the entry and fire an
update when the merge changed it, then drop `pending` and re-check
completion. -/
def resolveDifferencesInBackground (oldIndex : Nat) (newEnv : CompositeEnvInfo)
    (st : RState) : RState × List ROut :=
  let st1 := { st with pending := st.pending + 1 }
  match st1.seen[oldIndex]? with
  | none =>
    -- unreachable from the call site (`oldIndex` comes from a successful scan)
    let st2 := { st1 with pending := st1.pending - 1 }
    checkIfFinishedAndNotify st2
  | some oldEnv =>
    let r := resolveEnvCollision oldEnv newEnv
    let merged := r.1
    let oldM := r.2.1
    let st2 := { st1 with seen := st1.seen.set oldIndex oldM }
    if oldM = merged then
      let st3 := { st2 with pending := st2.pending - 1 }
      checkIfFinishedAndNotify st3
    else
      let st3 := { st2 with seen := st2.seen.set oldIndex merged }
      let out := if st3.downOpen then [ROut.fire (DownEvent.update oldIndex oldM merged)] else []
      let st4 := { st3 with pending := st3.pending - 1 }
      let c := checkIfFinishedAndNotify st4
      (c.1, out ++ c.2)

/-- One atomic step of the reducer's `iterEnvsIterator`.  A `yieldEnv` message
is one iteration of the primary loop (convert, scan for an identity match,
merge in background or yield and append).  A `notify` message is one run of
the `onUpdated` listener (ignored once the listener is disposed): bump
`pending`; absorb `discoveryFinished` (setting `done` and disposing the
listener) or forward other progress events; raise an error on an `undefined`
update; apply an in-range update to the buffer and republish it at the same
index; log and drop an out-of-range update; then drop `pending` and re-check
completion. -/
def reducerStep (st : RState) : UpMsg → Except String (RState × List ROut)
  | UpMsg.yieldEnv e =>
    let currEnv := convertBasicToComposite e
    match findIndex (fun s => areSameEnv s currEnv) st.seen with
    | some i => Except.ok (resolveDifferencesInBackground i currEnv st)
    | none =>
      Except.ok ({ st with seen := st.seen ++ [currEnv] }, [ROut.yieldPrim currEnv])
  | UpMsg.notify ev =>
    if st.upAttached then
      let st1 := { st with pending := st.pending + 1 }
      match ev with
      | UpEvent.progress stage =>
        if stage = ProgressStage.finished then
          let st2 := { st1 with done := true, upAttached := false, pending := st1.pending - 1 }
          Except.ok (checkIfFinishedAndNotify st2)
        else
          let out := if st1.downOpen then [ROut.fire (DownEvent.progress stage)] else []
          let st2 := { st1 with pending := st1.pending - 1 }
          let c := checkIfFinishedAndNotify st2
          Except.ok (c.1, out ++ c.2)
      | UpEvent.update idx _old upd =>
        match upd with
        | none => Except.error undefinedUpdateMsg
        | some u =>
          match st1.seen[idx]? with
          | some oldEnv =>
            let newEnv := convertBasicToComposite u
            let st2 := { st1 with seen := st1.seen.set idx newEnv }
            let out := if st2.downOpen then [ROut.fire (DownEvent.update idx oldEnv newEnv)] else []
            let st3 := { st2 with pending := st2.pending - 1 }
            let c := checkIfFinishedAndNotify st3
            Except.ok (c.1, out ++ c.2)
          | none =>
            let st2 := { st1 with pending := st1.pending - 1 }
            let c := checkIfFinishedAndNotify st2
            Except.ok (c.1, ROut.log idx :: c.2)
    else Except.ok (st, [])

/-- Run the reducer over a trace of upstream messages from a given state. -/
def runFrom : RState → List UpMsg → Except String (RState × List ROut)
  | st, [] => Except.ok (st, [])
  | st, m :: rest =>
    match reducerStep st m with
    | Except.ok (st1, outs) =>
      match runFrom st1 rest with
      | Except.ok (st2, outs2) => Except.ok (st2, outs ++ outs2)
      | Except.error e => Except.error e
    | Except.error e => Except.error e

/-- Initial reducer state.  `upAttached` records whether the upstream stream
exposes a notification source (`iterator.onUpdated !== undefined`). -/
def initState (hasUpd : Bool) : RState :=
  { seen := [], done := false, pending := 0, upAttached := hasUpd, downOpen := true }

/-- The full run of `iterEnvsIterator` (reducer) over a finite upstream
trace, fully consumed by the downstream caller: when the upstream exposes no
notification source, fire a synthetic `discoveryStarted` up front and, once
the primary sequence is exhausted, mark `done` and check completion; when it
does, the generator body ends with the loop and completion is driven by the
listener alone. -/
def run (hasUpd : Bool) (msgs : List UpMsg) : Except String (RState × List ROut) :=
  match runFrom (initState hasUpd) msgs with
  | Except.ok (st, outs) =>
    if hasUpd then Except.ok (st, outs)
    else
      let st1 := { st with done := true }
      let c := checkIfFinishedAndNotify st1
      Except.ok (c.1, ROut.fire (DownEvent.progress ProgressStage.started) :: (outs ++ c.2))
  | Except.error e => Except.error e

/-! ## The adapter stage (`ConvertLocator.iterEnvsIterator`)

Same two-channel shape as the reducer, one stage earlier: upstream values are
external `EnvInfo` records, the primary loop converts and yields every record
(no deduplication), and the `onUpdated` listener is structurally identical to
the reducer's, converting update payloads with `convertToBasicEnv`. -/

/-- An event on the adapter's upstream notification channel
(`PythonEnvUpdatedEvent<EnvInfo> | ProgressNotificationEvent`). -/
inductive AUpEvent where
  | progress (stage : ProgressStage)
  | update (index : Nat) (old : Option EnvInfo) (upd : Option EnvInfo)
  deriving DecidableEq, Repr

/-- One atomic upstream step seen by the adapter. -/
inductive AMsg where
  | yieldEnv (e : EnvInfo)
  | notify (ev : AUpEvent)
  deriving DecidableEq, Repr

/-- An event the adapter fires on its own notification channel. -/
inductive ADownEvent where
  | progress (stage : ProgressStage)
  | update (index : Nat) (old : BasicEnvInfo) (upd : BasicEnvInfo)
  deriving DecidableEq, Repr

/-- Observable output of the adapter. -/
inductive AOut where
  | yieldPrim (e : BasicEnvInfo)
  | fire (ev : ADownEvent)
  | log (index : Nat)
  deriving DecidableEq, Repr

/-- Adapter state: the `seen` buffer of already-yielded converted records and
the same completion bookkeeping as the reducer. -/
structure AState where
  seen : List BasicEnvInfo
  done : Bool
  pending : Nat
  upAttached : Bool
  downOpen : Bool
  deriving DecidableEq, Repr

/-- `checkIfFinishedAndNotify` of `ConvertLocator` (the adapter's textual copy
of the same helper). -/
def ConvertLocator.checkIfFinishedAndNotify (st : AState) : AState × List AOut :=
  if st.done && st.pending == 0 then
    ({ st with downOpen := false },
     if st.downOpen then [AOut.fire (ADownEvent.progress ProgressStage.finished)] else [])
  else (st, [])

/-- One atomic step of the adapter's `iterEnvsIterator`, parametrised by the
provider's extension id (from the locator metadata).  A `yieldEnv` message is
one iteration of the primary loop: convert, yield, append to `seen`.  The
`notify` handling mirrors the reducer's listener; an in-range update stores
`convertToBasicEnv(event.update)` and fires a second, equal conversion. -/
def adapterStep (extId : String) (st : AState) : AMsg → Except String (AState × List AOut)
  | AMsg.yieldEnv e =>
    let currEnv := ConvertLocator.convertToBasicEnv extId e
    Except.ok ({ st with seen := st.seen ++ [currEnv] }, [AOut.yieldPrim currEnv])
  | AMsg.notify ev =>
    if st.upAttached then
      let st1 := { st with pending := st.pending + 1 }
      match ev with
      | AUpEvent.progress stage =>
        if stage = ProgressStage.finished then
          let st2 := { st1 with done := true, upAttached := false, pending := st1.pending - 1 }
          Except.ok (ConvertLocator.checkIfFinishedAndNotify st2)
        else
          let out := if st1.downOpen then [AOut.fire (ADownEvent.progress stage)] else []
          let st2 := { st1 with pending := st1.pending - 1 }
          let c := ConvertLocator.checkIfFinishedAndNotify st2
          Except.ok (c.1, out ++ c.2)
      | AUpEvent.update idx _old upd =>
        match upd with
        | none => Except.error undefinedUpdateMsg
        | some u =>
          match st1.seen[idx]? with
          | some oldEnv =>
            let newEnv := ConvertLocator.convertToBasicEnv extId u
            let st2 := { st1 with seen := st1.seen.set idx newEnv }
            let out := if st2.downOpen then [AOut.fire (ADownEvent.update idx oldEnv newEnv)] else []
            let st3 := { st2 with pending := st2.pending - 1 }
            let c := ConvertLocator.checkIfFinishedAndNotify st3
            Except.ok (c.1, out ++ c.2)
          | none =>
            let st2 := { st1 with pending := st1.pending - 1 }
            let c := ConvertLocator.checkIfFinishedAndNotify st2
            Except.ok (c.1, AOut.log idx :: c.2)
    else Except.ok (st, [])

/-- Run the adapter over a trace of upstream messages from a given state. -/
def runFromA (extId : String) : AState → List AMsg → Except String (AState × List AOut)
  | st, [] => Except.ok (st, [])
  | st, m :: rest =>
    match adapterStep extId st m with
    | Except.ok (st1, outs) =>
      match runFromA extId st1 rest with
      | Except.ok (st2, outs2) => Except.ok (st2, outs ++ outs2)
      | Except.error e => Except.error e
    | Except.error e => Except.error e

/-- Initial adapter state. -/
def initStateA (hasUpd : Bool) : AState :=
  { seen := [], done := false, pending := 0, upAttached := hasUpd, downOpen := true }

/-- The full run of `ConvertLocator.iterEnvsIterator` over a finite upstream
trace, fully consumed by the downstream caller. -/
def runA (extId : String) (hasUpd : Bool) (msgs : List AMsg) :
    Except String (AState × List AOut) :=
  match runFromA extId (initStateA hasUpd) msgs with
  | Except.ok (st, outs) =>
    if hasUpd then Except.ok (st, outs)
    else
      let st1 := { st with done := true }
      let c := ConvertLocator.checkIfFinishedAndNotify st1
      Except.ok (c.1, AOut.fire (ADownEvent.progress ProgressStage.started) :: (outs ++ c.2))
  | Except.error e => Except.error e

/-! ## Observables and trace predicates -/

/-- Is this reducer output a `discoveryFinished` delivery. -/
def isFinishedFire : ROut → Bool
  | ROut.fire (DownEvent.progress ProgressStage.finished) => true
  | _ => false

/-- Is this reducer output a primary-sequence yield. -/
def isYieldOut : ROut → Bool
  | ROut.yieldPrim _ => true
  | _ => false

/-- The primary-sequence value of a reducer output, if any. -/
def yieldOf : ROut → Option CompositeEnvInfo
  | ROut.yieldPrim e => some e
  | _ => none

/-- After the first `discoveryFinished` delivery, no further primary yield
occurs ("Finished only once the primary sequence is exhausted"). -/
def yieldsBeforeFinished : List ROut → Bool
  | [] => true
  | o :: rest =>
    if isFinishedFire o then rest.all (fun x => !isYieldOut x)
    else yieldsBeforeFinished rest

/-- Is this adapter output a `discoveryFinished` delivery. -/
def isFinishedFireA : AOut → Bool
  | AOut.fire (ADownEvent.progress ProgressStage.finished) => true
  | _ => false

/-- Is this adapter output a primary-sequence yield. -/
def isYieldOutA : AOut → Bool
  | AOut.yieldPrim _ => true
  | _ => false

/-- Adapter analogue of `yieldsBeforeFinished`. -/
def yieldsBeforeFinishedA : List AOut → Bool
  | [] => true
  | o :: rest =>
    if isFinishedFireA o then rest.all (fun x => !isYieldOutA x)
    else yieldsBeforeFinishedA rest

/-- Is this reducer upstream message a primary-sequence value. -/
def isYieldMsg : UpMsg → Bool
  | UpMsg.yieldEnv _ => true
  | _ => false

/-- Is this reducer upstream message a `discoveryFinished` notification. -/
def isFinNotify : UpMsg → Bool
  | UpMsg.notify (UpEvent.progress ProgressStage.finished) => true
  | _ => false

/-- No upstream update event carries an `undefined` payload (the fatal
protocol violation is absent from the trace). -/
def noUndefinedUpdates (msgs : List UpMsg) : Bool :=
  msgs.all fun m =>
    match m with
    | UpMsg.notify (UpEvent.update _ _ none) => false
    | _ => true

/-- Well-behaved completion shape of an upstream trace with a notification
source: a `discoveryFinished` notification is present, and once the first one
arrives the upstream primary sequence is exhausted (no later `yieldEnv`). -/
def goodFinishShape : List UpMsg → Bool
  | [] => false
  | m :: rest =>
    if isFinNotify m then rest.all (fun x => !isYieldMsg x)
    else goodFinishShape rest

/-- Adapter analogues of the reducer trace predicates. -/
def isYieldMsgA : AMsg → Bool
  | AMsg.yieldEnv _ => true
  | _ => false

/-- Is this adapter upstream message a `discoveryFinished` notification. -/
def isFinNotifyA : AMsg → Bool
  | AMsg.notify (AUpEvent.progress ProgressStage.finished) => true
  | _ => false

/-- No adapter upstream update event carries an `undefined` payload. -/
def noUndefinedUpdatesA (msgs : List AMsg) : Bool :=
  msgs.all fun m =>
    match m with
    | AMsg.notify (AUpEvent.update _ _ none) => false
    | _ => true

/-- Well-behaved completion shape of an adapter upstream trace. -/
def goodFinishShapeA : List AMsg → Bool
  | [] => false
  | m :: rest =>
    if isFinNotifyA m then rest.all (fun x => !isYieldMsgA x)
    else goodFinishShapeA rest

/-- The upstream primary-sequence records of a reducer trace, in order. -/
def recordsOf (msgs : List UpMsg) : List BasicEnvInfo :=
  msgs.filterMap fun m =>
    match m with
    | UpMsg.yieldEnv e => some e
    | _ => none

/-- The records the reducer's primary sequence yields on a trace (empty when
the run aborts). -/
def primYields (hasUpd : Bool) (msgs : List UpMsg) : List CompositeEnvInfo :=
  match run hasUpd msgs with
  | Except.ok (_, outs) => outs.filterMap yieldOf
  | Except.error _ => []

/-- First occurrence of each identity, relative to an accumulator of already
seen identities: the subsequence of records whose identity is new. -/
def firstSeenAux (ids : List (String × Option String)) :
    List BasicEnvInfo → List BasicEnvInfo
  | [] => []
  | r :: rs =>
    if envIdB r ∈ ids then firstSeenAux ids rs
    else r :: firstSeenAux (envIdB r :: ids) rs

/-- The subsequence of records whose identity has not appeared earlier in the
list: the order in which distinct identities are first observed. -/
def firstSeen (rs : List BasicEnvInfo) : List BasicEnvInfo :=
  firstSeenAux [] rs

/-- Does this message, processed in this reducer state, replace a buffer
entry by an update payload of a different identity?  `true` means the message
is harmless in that respect. -/
def updKeepsId (st : RState) : UpMsg → Bool
  | UpMsg.notify (UpEvent.update idx _ (some u)) =>
    if st.upAttached then
      match st.seen[idx]? with
      | some e => areSameEnv (convertBasicToComposite u) e
      | none => true
    else true
  | _ => true

/-- Every upstream update event of the trace, at the moment the reducer
processes it, preserves the identity of the buffer record it replaces (the
spec's "refined in place" reading of update notifications). -/
def updatesPreserveIdsFrom (st : RState) : List UpMsg → Bool
  | [] => true
  | m :: rest =>
    updKeepsId st m &&
      (match reducerStep st m with
       | Except.ok (st1, _) => updatesPreserveIdsFrom st1 rest
       | Except.error _ => true)

/-! ## Lemmas about the list helpers -/

theorem mem_dedupAux : ∀ (l kept : List String) (x : String),
    x ∈ dedupAux kept l ↔ x ∈ l ∧ x ∉ kept := by
  intro l
  induction l with
  | nil => simp [dedupAux]
  | cons y ys ih =>
    intro kept x
    simp only [dedupAux]
    by_cases hxy : x = y
    · subst hxy
      split <;> rename_i h <;> simp [ih, List.mem_cons, h]
    · split <;> rename_i h <;> simp [ih, List.mem_cons, hxy]

theorem mem_lodashUnion2 (a b : List String) (x : String) :
    x ∈ lodashUnion2 a b ↔ x ∈ a ∨ x ∈ b := by
  simp [lodashUnion2, mem_dedupAux]

theorem mem_lodashUnion3 (a b c : List String) (x : String) :
    x ∈ lodashUnion3 a b c ↔ x ∈ a ∨ x ∈ b ∨ x ∈ c := by
  simp [lodashUnion3, mem_dedupAux, or_assoc]

theorem insertBy_perm (c : α → α → Int) (a : α) :
    ∀ l : List α, (insertBy c a l).Perm (a :: l) := by
  intro l
  induction l with
  | nil => simp [insertBy]
  | cons y ys ih =>
    simp only [insertBy]
    split
    · exact List.Perm.refl _
    · exact (ih.cons y).trans (List.Perm.swap a y ys)

theorem sortBy_perm (c : α → α → Int) : ∀ l : List α, (sortBy c l).Perm l := by
  intro l
  induction l with
  | nil => simp [sortBy]
  | cons y ys ih => exact (insertBy_perm c y (sortBy c ys)).trans (ih.cons y)

theorem mem_sortBy (c : α → α → Int) (l : List α) (x : α) :
    x ∈ sortBy c l ↔ x ∈ l :=
  (sortBy_perm c l).mem_iff

/-! ## Lemmas about collision resolution -/

theorem sortEnvInfoByPriority_operands (a b : CompositeEnvInfo) :
    (sortEnvInfoByPriority a b).2.1 = { a with kind := sortBy sortKindFunction a.kind } ∧
    (sortEnvInfoByPriority a b).2.2 = { b with kind := sortBy sortKindFunction b.kind } ∧
    ((sortEnvInfoByPriority a b).1.1 = (sortEnvInfoByPriority a b).2.1 ∨
      (sortEnvInfoByPriority a b).1.1 = (sortEnvInfoByPriority a b).2.2) := by
  refine ⟨rfl, rfl, ?_⟩
  simp only [sortEnvInfoByPriority, getTopKind]
  split <;> split <;> simp

theorem resolveEnvCollision_old_eq (a b : CompositeEnvInfo) :
    (resolveEnvCollision a b).2.1 = { a with kind := sortBy sortKindFunction a.kind } := by
  simp only [resolveEnvCollision]
  exact (sortEnvInfoByPriority_operands a b).1

theorem resolveEnvCollision_new_eq (a b : CompositeEnvInfo) :
    (resolveEnvCollision a b).2.2 = { b with kind := sortBy sortKindFunction b.kind } := by
  simp only [resolveEnvCollision]
  exact (sortEnvInfoByPriority_operands a b).2.1

theorem resolveEnvCollision_merged_eq (a b : CompositeEnvInfo) :
    ∃ env : CompositeEnvInfo,
      (env = { a with kind := sortBy sortKindFunction a.kind } ∨
        env = { b with kind := sortBy sortKindFunction b.kind }) ∧
      (resolveEnvCollision a b).1 =
        { env with
          source := some (lodashUnion2 (a.source.getD []) (b.source.getD []))
          kind := lodashUnion3 env.kind (sortBy sortKindFunction a.kind)
            (sortBy sortKindFunction b.kind) } := by
  obtain ⟨h1, h2, h3 | h3⟩ := sortEnvInfoByPriority_operands a b <;>
    refine ⟨(sortEnvInfoByPriority a b).1.1, ?_, ?_⟩ <;>
    simp only [resolveEnvCollision, h3, h1, h2] <;> simp

theorem resolve_kind_mem (a b : CompositeEnvInfo) (x : String) :
    x ∈ (resolveEnvCollision a b).1.kind ↔ x ∈ a.kind ∨ x ∈ b.kind := by
  obtain ⟨env, henv, hm⟩ := resolveEnvCollision_merged_eq a b
  rw [hm]
  show x ∈ lodashUnion3 env.kind (sortBy sortKindFunction a.kind)
    (sortBy sortKindFunction b.kind) ↔ _
  rw [mem_lodashUnion3]
  rcases henv with rfl | rfl <;> simp [mem_sortBy] <;> tauto

theorem resolve_source_mem (a b : CompositeEnvInfo) (x : String) :
    x ∈ (resolveEnvCollision a b).1.source.getD [] ↔
      x ∈ a.source.getD [] ∨ x ∈ b.source.getD [] := by
  obtain ⟨env, henv, hm⟩ := resolveEnvCollision_merged_eq a b
  rw [hm]
  show x ∈ lodashUnion2 (a.source.getD []) (b.source.getD []) ↔ _
  rw [mem_lodashUnion2]

/-- C3: for records A and B with the same identity, merging in either order
yields the same source set and the same kind set, and merging a record with
itself preserves its source and kind sets, regardless of the order of the
representing arrays (`resolveEnvCollision` unions sources and kinds, so the
merge is commutative and idempotent at set level). -/
theorem c3_merge_commutative_idempotent (A B : CompositeEnvInfo)
    (h : areSameEnv A B = true) :
    (resolveEnvCollision A B).1.kind.toFinset = (resolveEnvCollision B A).1.kind.toFinset ∧
    ((resolveEnvCollision A B).1.source.getD []).toFinset =
      ((resolveEnvCollision B A).1.source.getD []).toFinset ∧
    (resolveEnvCollision A A).1.kind.toFinset = A.kind.toFinset ∧
    ((resolveEnvCollision A A).1.source.getD []).toFinset = (A.source.getD []).toFinset := by
  refine ⟨?_, ?_, ?_, ?_⟩ <;> ext x <;>
    simp only [List.mem_toFinset, resolve_kind_mem, resolve_source_mem] <;> tauto

/-- Witness for C3 at concrete same-identity records. -/
theorem c3_merge_commutative_idempotent_witness :
    areSameEnv ⟨"/usr/bin/python3.9", none, ["venv"], some ["pa"], "pa"⟩
        ⟨"/usr/bin/python3.9", none, ["system"], some ["pb"], "pb"⟩ = true ∧
      ((resolveEnvCollision ⟨"/usr/bin/python3.9", none, ["venv"], some ["pa"], "pa"⟩
            ⟨"/usr/bin/python3.9", none, ["system"], some ["pb"], "pb"⟩).1.kind.toFinset =
        (resolveEnvCollision ⟨"/usr/bin/python3.9", none, ["system"], some ["pb"], "pb"⟩
            ⟨"/usr/bin/python3.9", none, ["venv"], some ["pa"], "pa"⟩).1.kind.toFinset ∧
      ((resolveEnvCollision ⟨"/usr/bin/python3.9", none, ["venv"], some ["pa"], "pa"⟩
            ⟨"/usr/bin/python3.9", none, ["system"], some ["pb"], "pb"⟩).1.source.getD []).toFinset =
        ((resolveEnvCollision ⟨"/usr/bin/python3.9", none, ["system"], some ["pb"], "pb"⟩
            ⟨"/usr/bin/python3.9", none, ["venv"], some ["pa"], "pa"⟩).1.source.getD []).toFinset ∧
      (resolveEnvCollision ⟨"/usr/bin/python3.9", none, ["venv"], some ["pa"], "pa"⟩
            ⟨"/usr/bin/python3.9", none, ["venv"], some ["pa"], "pa"⟩).1.kind.toFinset =
        (["venv"] : List String).toFinset ∧
      ((resolveEnvCollision ⟨"/usr/bin/python3.9", none, ["venv"], some ["pa"], "pa"⟩
            ⟨"/usr/bin/python3.9", none, ["venv"], some ["pa"], "pa"⟩).1.source.getD []).toFinset =
        ((some ["pa"] : Option (List String)).getD []).toFinset) :=
  ⟨by decide,
    c3_merge_commutative_idempotent
      ⟨"/usr/bin/python3.9", none, ["venv"], some ["pa"], "pa"⟩
      ⟨"/usr/bin/python3.9", none, ["system"], some ["pb"], "pb"⟩ (by decide)⟩

/-- C9 counterexample: `resolveEnvCollision` does not leave its operands
unchanged — `getTopKind` sorts the operand's kind array in place
(`kinds.sort(sortKindFunction)`), so the post-call old record differs from
the pre-call old record in the order of its kind array. -/
theorem c9_operand_mutation_counterexample :
    (resolveEnvCollision ⟨"a", none, ["virtualenv", "pyenv"], some ["x"], "x"⟩
          ⟨"a", none, ["system"], some ["y"], "y"⟩).2.1 ≠
        ⟨"a", none, ["virtualenv", "pyenv"], some ["x"], "x"⟩ ∧
      (resolveEnvCollision ⟨"a", none, ["virtualenv", "pyenv"], some ["x"], "x"⟩
          ⟨"a", none, ["system"], some ["y"], "y"⟩).2.1.kind ≠ ["virtualenv", "pyenv"] := by
  constructor <;> decide

/-- C9 amended: `resolveEnvCollision` leaves every field of both operands
unchanged except the order of their kind arrays, which the in-place
`kinds.sort` of `getTopKind` may permute (the element sets are preserved);
the merged base itself is deep-copied, so the merge result is a fresh record
rather than a mutation of the buffer entry. -/
theorem c9_operands_preserved_up_to_kind_order (A B : CompositeEnvInfo) :
    ((resolveEnvCollision A B).2.1.executablePath = A.executablePath ∧
      (resolveEnvCollision A B).2.1.envPath = A.envPath ∧
      (resolveEnvCollision A B).2.1.source = A.source ∧
      (resolveEnvCollision A B).2.1.extensionId = A.extensionId ∧
      (resolveEnvCollision A B).2.1.kind.Perm A.kind) ∧
    ((resolveEnvCollision A B).2.2.executablePath = B.executablePath ∧
      (resolveEnvCollision A B).2.2.envPath = B.envPath ∧
      (resolveEnvCollision A B).2.2.source = B.source ∧
      (resolveEnvCollision A B).2.2.extensionId = B.extensionId ∧
      (resolveEnvCollision A B).2.2.kind.Perm B.kind) := by
  rw [resolveEnvCollision_old_eq, resolveEnvCollision_new_eq]
  exact ⟨⟨rfl, rfl, rfl, rfl, sortBy_perm _ _⟩, ⟨rfl, rfl, rfl, rfl, sortBy_perm _ _⟩⟩

theorem sortEnvInfoByPriority_tie (a b : CompositeEnvInfo)
    (hk : sortKindFunctionOpt (getTopKind a.kind).1 (getTopKind b.kind).1 = 0)
    (he : sortExtensionSource a.extensionId b.extensionId = 0) :
    (sortEnvInfoByPriority a b).1.1 = { a with kind := sortBy sortKindFunction a.kind } := by
  simp only [getTopKind] at hk
  simp only [sortEnvInfoByPriority, getTopKind]
  rw [hk, he]
  simp

/-- C10: when the two colliding records tie on priority (their best kinds
compare equal and their extension sources compare equal), the stable
two-element sort keeps the old record first, so `resolveEnvCollision` uses
the old record as the merge base: every field of the merged record other
than `source` and `kind` equals the old record's field. -/
theorem c10_tie_prefers_old (A B : CompositeEnvInfo)
    (hk : sortKindFunctionOpt (getTopKind A.kind).1 (getTopKind B.kind).1 = 0)
    (he : sortExtensionSource A.extensionId B.extensionId = 0) :
    (resolveEnvCollision A B).1.executablePath = A.executablePath ∧
    (resolveEnvCollision A B).1.envPath = A.envPath ∧
    (resolveEnvCollision A B).1.extensionId = A.extensionId := by
  have hbase := sortEnvInfoByPriority_tie A B hk he
  simp [resolveEnvCollision, hbase]

/-- Witness for C10 at a concrete tie: equal best kinds, both providers
unlisted (so their extension sources compare equal). -/
theorem c10_tie_prefers_old_witness :
    sortKindFunctionOpt (getTopKind (["venv"] : List String)).1
        (getTopKind ["venv", "system"]).1 = 0 ∧
      sortExtensionSource "pa" "pb" = 0 ∧
      ((resolveEnvCollision ⟨"a", none, ["venv"], some ["pa"], "pa"⟩
            ⟨"a", none, ["venv", "system"], some ["pb"], "pb"⟩).1.executablePath = "a" ∧
        (resolveEnvCollision ⟨"a", none, ["venv"], some ["pa"], "pa"⟩
            ⟨"a", none, ["venv", "system"], some ["pb"], "pb"⟩).1.envPath = none ∧
        (resolveEnvCollision ⟨"a", none, ["venv"], some ["pa"], "pa"⟩
            ⟨"a", none, ["venv", "system"], some ["pb"], "pb"⟩).1.extensionId = "pa") :=
  ⟨by decide, by decide,
    c10_tie_prefers_old ⟨"a", none, ["venv"], some ["pa"], "pa"⟩
      ⟨"a", none, ["venv", "system"], some ["pb"], "pb"⟩ (by decide) (by decide)⟩

/-- C6 counterexample: `convertKind` is `(source as unknown) as PythonEnvKind`
— a cast, not a mapping table — so an unrecognized external identifier is
passed through unchanged instead of being mapped to `Unknown`, and the result
escapes the closed internal kind vocabulary. -/
theorem c6_unknown_default_counterexample :
    convertKind "made-up-tool" ≠ "unknown" ∧
      convertKind "made-up-tool" ∉ kindNamesByPriority := by
  constructor <;> decide

/-- C6 amended: the adapter's kind translation is the identity cast — every
external kind string, recognized or not, is passed through unchanged (it is
not mapped into the closed internal enumeration and unrecognized identifiers
do not become `Unknown`) — and a multi-kind external record is converted
using only its first declared kind. -/
theorem c6_kind_cast_identity (s extId : String) (env : EnvInfo)
    (k : String) (rest : List String) (h : env.envSources = k :: rest) :
    convertKind s = s ∧
      (ConvertLocator.convertToBasicEnv extId env).kind = some (convertKind k) := by
  exact ⟨rfl, by simp [ConvertLocator.convertToBasicEnv, h]⟩

/-- Witness for C6 at a concrete two-kind external record. -/
theorem c6_kind_cast_identity_witness :
    (⟨"/usr/bin/python3", none, ["venv", "system"]⟩ : EnvInfo).envSources =
        "venv" :: ["system"] ∧
      (convertKind "anything" = "anything" ∧
        (ConvertLocator.convertToBasicEnv "ext"
            ⟨"/usr/bin/python3", none, ["venv", "system"]⟩).kind =
          some (convertKind "venv")) :=
  ⟨rfl, c6_kind_cast_identity "anything" "ext"
    ⟨"/usr/bin/python3", none, ["venv", "system"]⟩ "venv" ["system"] rfl⟩

/-! ## Step equations of the reducer -/

theorem checkIfFinishedAndNotify_not_done (st : RState) (hd : st.done = false) :
    checkIfFinishedAndNotify st = (st, []) := by
  simp [checkIfFinishedAndNotify, hd]

theorem reducerStep_notify_detached (st : RState) (ev : UpEvent)
    (h : st.upAttached = false) :
    reducerStep st (UpMsg.notify ev) = Except.ok (st, []) := by
  simp [reducerStep, h]

theorem reducerStep_progress_other (st : RState) (stage : ProgressStage)
    (hup : st.upAttached = true) (hd : st.done = false)
    (hs : stage ≠ ProgressStage.finished) :
    reducerStep st (UpMsg.notify (UpEvent.progress stage)) =
      Except.ok (st, if st.downOpen then [ROut.fire (DownEvent.progress stage)] else []) := by
  rcases st with ⟨sn, d, p, ua, dn⟩
  cases hd
  cases hup
  simp [reducerStep, hs, checkIfFinishedAndNotify]

theorem reducerStep_finished (st : RState) (hup : st.upAttached = true) :
    reducerStep st (UpMsg.notify (UpEvent.progress ProgressStage.finished)) =
      Except.ok (checkIfFinishedAndNotify
        { st with done := true, upAttached := false, pending := st.pending + 1 - 1 }) := by
  simp [reducerStep, hup]

theorem reducerStep_update_undefined (st : RState) (idx : Nat)
    (o : Option BasicEnvInfo) (hup : st.upAttached = true) :
    reducerStep st (UpMsg.notify (UpEvent.update idx o none)) =
      Except.error undefinedUpdateMsg := by
  simp [reducerStep, hup]

theorem reducerStep_update_inrange (st : RState) (idx : Nat)
    (o : Option BasicEnvInfo) (u : BasicEnvInfo) (hup : st.upAttached = true)
    (hd : st.done = false) (h4 : idx < st.seen.length) :
    reducerStep st (UpMsg.notify (UpEvent.update idx o (some u))) =
      Except.ok ({ st with seen := st.seen.set idx (convertBasicToComposite u) },
        if st.downOpen then
          [ROut.fire (DownEvent.update idx st.seen[idx] (convertBasicToComposite u))]
        else []) := by
  simp [reducerStep, hup, List.getElem?_eq_getElem h4, checkIfFinishedAndNotify, hd]

theorem reducerStep_update_outrange (st : RState) (idx : Nat)
    (o : Option BasicEnvInfo) (u : BasicEnvInfo) (hup : st.upAttached = true)
    (hd : st.done = false) (h4 : st.seen.length ≤ idx) :
    reducerStep st (UpMsg.notify (UpEvent.update idx o (some u))) =
      Except.ok (st, [ROut.log idx]) := by
  rcases st with ⟨sn, d, p, ua, dn⟩
  cases hd
  cases hup
  simp only [] at h4
  simp [reducerStep, List.getElem?_eq_none h4, checkIfFinishedAndNotify]

theorem reducerStep_yield_new (st : RState) (e : BasicEnvInfo)
    (hf : findIndex (fun s => areSameEnv s (convertBasicToComposite e)) st.seen = none) :
    reducerStep st (UpMsg.yieldEnv e) =
      Except.ok ({ st with seen := st.seen ++ [convertBasicToComposite e] },
        [ROut.yieldPrim (convertBasicToComposite e)]) := by
  simp [reducerStep, hf]

theorem reducerStep_yield_dup (st : RState) (e : BasicEnvInfo) (i : Nat)
    (hf : findIndex (fun s => areSameEnv s (convertBasicToComposite e)) st.seen = some i) :
    reducerStep st (UpMsg.yieldEnv e) =
      Except.ok (resolveDifferencesInBackground i (convertBasicToComposite e) st) := by
  simp [reducerStep, hf]

theorem resolveDifferences_spec_eq (i : Nat) (newEnv : CompositeEnvInfo)
    (st : RState) (hd : st.done = false) (h : i < st.seen.length)
    (heq : (resolveEnvCollision st.seen[i] newEnv).2.1 =
      (resolveEnvCollision st.seen[i] newEnv).1) :
    resolveDifferencesInBackground i newEnv st =
      ({ st with
          seen := st.seen.set i (resolveEnvCollision st.seen[i] newEnv).2.1 }, []) := by
  rcases st with ⟨sn, d, p, ua, dn⟩
  cases hd
  simp only [] at h heq
  simp [resolveDifferencesInBackground, List.getElem?_eq_getElem h, heq,
    checkIfFinishedAndNotify]

theorem resolveDifferences_spec_ne (i : Nat) (newEnv : CompositeEnvInfo)
    (st : RState) (hd : st.done = false) (h : i < st.seen.length)
    (hne : (resolveEnvCollision st.seen[i] newEnv).2.1 ≠
      (resolveEnvCollision st.seen[i] newEnv).1) :
    resolveDifferencesInBackground i newEnv st =
      ({ st with
          seen := st.seen.set i (resolveEnvCollision st.seen[i] newEnv).1 },
        if st.downOpen then
          [ROut.fire (DownEvent.update i (resolveEnvCollision st.seen[i] newEnv).2.1
            (resolveEnvCollision st.seen[i] newEnv).1)]
        else []) := by
  rcases st with ⟨sn, d, p, ua, dn⟩
  cases hd
  simp only [] at h hne
  simp [resolveDifferencesInBackground, List.getElem?_eq_getElem h, hne,
    checkIfFinishedAndNotify, List.set_set]

/-! ## Facts about findIndex -/

theorem findIndex_some_spec (p : α → Bool) :
    ∀ (l : List α) (i : Nat), findIndex p l = some i →
      ∃ h : i < l.length, p (l.get ⟨i, h⟩) = true := by
  intro l
  induction l with
  | nil => intro i h; simp [findIndex] at h
  | cons x xs ih =>
    intro i h
    simp only [findIndex] at h
    split at h
    · rename_i hp
      cases h
      exact ⟨Nat.succ_pos _, hp⟩
    · obtain ⟨j, hj, rfl⟩ := Option.map_eq_some'.mp h
      obtain ⟨hlt, hp⟩ := ih j hj
      exact ⟨Nat.succ_lt_succ hlt, hp⟩

theorem findIndex_none_spec (p : α → Bool) :
    ∀ l : List α, findIndex p l = none ↔ ∀ x ∈ l, p x = false := by
  intro l
  induction l with
  | nil => simp [findIndex]
  | cons x xs ih =>
    simp only [findIndex, List.mem_cons]
    split <;> rename_i hp
    · constructor
      · intro h; cases h
      · intro h; rw [h x (Or.inl rfl)] at hp; cases hp
    · simp only [Option.map_eq_none', ih]
      constructor
      · rintro h y (rfl | hy)
        · exact Bool.eq_false_iff.mpr hp
        · exact h y hy
      · intro h y hy; exact h y (Or.inr hy)

/-! ## Error and flag analysis of reducer steps -/

theorem reducerStep_error_eq (st : RState) (m : UpMsg) (e : String)
    (h : reducerStep st m = Except.error e) : e = undefinedUpdateMsg := by
  cases m with
  | yieldEnv e' =>
    rcases hf : findIndex (fun s => areSameEnv s (convertBasicToComposite e')) st.seen
        with _ | i <;> simp [reducerStep, hf] at h
  | notify ev =>
    by_cases hup : st.upAttached
    · cases ev with
      | progress stage => cases stage <;> simp [reducerStep, hup] at h
      | update idx o upd =>
        cases upd with
        | none =>
          rw [reducerStep_update_undefined st idx o hup] at h
          exact (Except.error.injEq _ _ ▸ h :).symm
        | some u =>
          rcases hg : st.seen[idx]? with _ | oe <;> simp [reducerStep, hup, hg] at h
    · rw [reducerStep_notify_detached st ev (Bool.not_eq_true _ ▸ hup)] at h
      cases h

theorem reducerStep_ok_of_noUndef (st : RState) (m : UpMsg)
    (hm : (match m with
      | UpMsg.notify (UpEvent.update _ _ none) => false
      | _ => true) = true) :
    ∃ p, reducerStep st m = Except.ok p := by
  cases m with
  | yieldEnv e' =>
    rcases hf : findIndex (fun s => areSameEnv s (convertBasicToComposite e')) st.seen
        with _ | i
    · exact ⟨_, reducerStep_yield_new st e' hf⟩
    · exact ⟨_, reducerStep_yield_dup st e' i hf⟩
  | notify ev =>
    by_cases hup : st.upAttached
    · cases ev with
      | progress stage => cases stage <;> simp [reducerStep, hup]
      | update idx o upd =>
        cases upd with
        | none => simp at hm
        | some u => rcases hg : st.seen[idx]? with _ | oe <;> simp [reducerStep, hup, hg]
    · exact ⟨_, reducerStep_notify_detached st ev (Bool.not_eq_true _ ▸ hup)⟩

theorem reducerStep_no_fin_ok (st : RState) (m : UpMsg) (st1 : RState)
    (outs : List ROut) (h : reducerStep st m = Except.ok (st1, outs))
    (hd : st.done = false) (hm : isFinNotify m = false) :
    st1.done = false ∧ st1.upAttached = st.upAttached ∧ st1.downOpen = st.downOpen ∧
      st1.pending = st.pending ∧ outs.all (fun o => !isFinishedFire o) = true := by
  cases m with
  | yieldEnv e =>
    rcases hf : findIndex (fun s => areSameEnv s (convertBasicToComposite e)) st.seen
        with _ | i
    · rw [reducerStep_yield_new st e hf] at h
      simp only [Except.ok.injEq, Prod.mk.injEq] at h
      obtain ⟨rfl, rfl⟩ := h
      simp [hd, isFinishedFire]
    · rw [reducerStep_yield_dup st e i hf] at h
      obtain ⟨hi, -⟩ := findIndex_some_spec _ _ _ hf
      by_cases heq : (resolveEnvCollision st.seen[i] (convertBasicToComposite e)).2.1 =
          (resolveEnvCollision st.seen[i] (convertBasicToComposite e)).1
      · rw [resolveDifferences_spec_eq i _ st hd hi heq] at h
        simp only [Except.ok.injEq, Prod.mk.injEq] at h
        obtain ⟨rfl, rfl⟩ := h
        simp [hd]
      · rw [resolveDifferences_spec_ne i _ st hd hi heq] at h
        simp only [Except.ok.injEq, Prod.mk.injEq] at h
        obtain ⟨rfl, rfl⟩ := h
        refine ⟨hd, rfl, rfl, rfl, ?_⟩
        split <;> simp [isFinishedFire]
  | notify ev =>
    by_cases hup : st.upAttached
    · cases ev with
      | progress stage =>
        have hs : stage ≠ ProgressStage.finished := by
          cases stage
          · intro hc; cases hc
          · simp [isFinNotify] at hm
        rw [reducerStep_progress_other st stage hup hd hs] at h
        simp only [Except.ok.injEq, Prod.mk.injEq] at h
        obtain ⟨rfl, rfl⟩ := h
        refine ⟨hd, rfl, rfl, rfl, ?_⟩
        cases stage
        · split <;> simp [isFinishedFire]
        · exact absurd rfl hs
      | update idx o upd =>
        cases upd with
        | none =>
          rw [reducerStep_update_undefined st idx o hup] at h
          cases h
        | some u =>
          rcases Nat.lt_or_ge idx st.seen.length with hlt | hge
          · rw [reducerStep_update_inrange st idx o u hup hd hlt] at h
            simp only [Except.ok.injEq, Prod.mk.injEq] at h
            obtain ⟨rfl, rfl⟩ := h
            refine ⟨hd, rfl, rfl, rfl, ?_⟩
            split <;> simp [isFinishedFire]
          · rw [reducerStep_update_outrange st idx o u hup hd hge] at h
            simp only [Except.ok.injEq, Prod.mk.injEq] at h
            obtain ⟨rfl, rfl⟩ := h
            simp [hd, isFinishedFire]
    · rw [reducerStep_notify_detached st ev (Bool.not_eq_true _ ▸ hup)] at h
      simp only [Except.ok.injEq, Prod.mk.injEq] at h
      obtain ⟨rfl, rfl⟩ := h
      simp [hd]

/-! ## Run-level lemmas for the reducer -/

theorem runFrom_append (a : List UpMsg) : ∀ (b : List UpMsg) (st : RState),
    runFrom st (a ++ b) =
      match runFrom st a with
      | Except.ok (st1, outs1) =>
        match runFrom st1 b with
        | Except.ok (st2, outs2) => Except.ok (st2, outs1 ++ outs2)
        | Except.error e => Except.error e
      | Except.error e => Except.error e := by
  induction a with
  | nil =>
    intro b st
    simp only [List.nil_append, runFrom]
    cases hb : runFrom st b with
    | ok p => cases p; simp
    | error e => rfl
  | cons m a' ih =>
    intro b st
    simp only [List.cons_append, runFrom]
    cases hstep : reducerStep st m with
    | error e => rfl
    | ok p =>
      obtain ⟨st1, o1⟩ := p
      dsimp only [List.append_eq]
      rw [ih b st1]
      cases hA : runFrom st1 a' with
      | error e => rfl
      | ok q =>
        obtain ⟨stA, oA⟩ := q
        dsimp only
        cases hB : runFrom stA b with
        | error e => rfl
        | ok r =>
          obtain ⟨stB, oB⟩ := r
          simp [List.append_assoc]

theorem runFrom_error_eq (msgs : List UpMsg) : ∀ (st : RState) (e : String),
    runFrom st msgs = Except.error e → e = undefinedUpdateMsg := by
  induction msgs with
  | nil => intro st e h; cases h
  | cons m rest ih =>
    intro st e h
    simp only [runFrom] at h
    cases hstep : reducerStep st m with
    | error e' =>
      rw [hstep] at h
      cases h
      exact reducerStep_error_eq st m e hstep
    | ok p =>
      obtain ⟨st1, o1⟩ := p
      rw [hstep] at h
      dsimp only at h
      cases hrest : runFrom st1 rest with
      | error e' =>
        rw [hrest] at h
        cases h
        exact ih st1 e hrest
      | ok q =>
        obtain ⟨st2, o2⟩ := q
        rw [hrest] at h
        cases h

theorem runFrom_ok_of_noUndef (msgs : List UpMsg) : ∀ st : RState,
    noUndefinedUpdates msgs = true → ∃ p, runFrom st msgs = Except.ok p := by
  induction msgs with
  | nil => intro st _; exact ⟨(st, []), rfl⟩
  | cons m rest ih =>
    intro st hnu
    simp only [noUndefinedUpdates, List.all_cons, Bool.and_eq_true] at hnu
    obtain ⟨⟨st1, o1⟩, hstep⟩ := reducerStep_ok_of_noUndef st m hnu.1
    obtain ⟨⟨st2, o2⟩, hrest⟩ := ih st1 hnu.2
    exact ⟨(st2, o1 ++ o2), by simp [runFrom, hstep, hrest]⟩

theorem runFrom_no_fin (msgs : List UpMsg) : ∀ st : RState,
    noUndefinedUpdates msgs = true → msgs.all (fun m => !isFinNotify m) = true →
    st.done = false →
    ∃ st1 outs, runFrom st msgs = Except.ok (st1, outs) ∧ st1.done = false ∧
      st1.upAttached = st.upAttached ∧ st1.downOpen = st.downOpen ∧
      st1.pending = st.pending ∧ outs.all (fun o => !isFinishedFire o) = true := by
  induction msgs with
  | nil => intro st _ _ hd; exact ⟨st, [], rfl, hd, rfl, rfl, rfl, rfl⟩
  | cons m rest ih =>
    intro st hnu hnf hd
    simp only [noUndefinedUpdates, List.all_cons, Bool.and_eq_true] at hnu hnf
    obtain ⟨⟨st1, o1⟩, hstep⟩ := reducerStep_ok_of_noUndef st m hnu.1
    have hm : isFinNotify m = false := by simpa using hnf.1
    obtain ⟨hd1, hup1, hdown1, hp1, ho1⟩ :=
      reducerStep_no_fin_ok st m st1 o1 hstep hd hm
    obtain ⟨st2, o2, hrun, hd2, hup2, hdown2, hp2, ho2⟩ :=
      ih st1 (by simp [noUndefinedUpdates, hnu.2]) hnf.2 hd1
    refine ⟨st2, o1 ++ o2, by simp [runFrom, hstep, hrun], hd2,
      hup2.trans hup1, hdown2.trans hdown1, hp2.trans hp1, ?_⟩
    simp [List.all_append, ho1, ho2]

theorem runFrom_dead_tail (msgs : List UpMsg) : ∀ st : RState,
    st.upAttached = false → msgs.all (fun m => !isYieldMsg m) = true →
    runFrom st msgs = Except.ok (st, []) := by
  induction msgs with
  | nil => intro st _ _; rfl
  | cons m rest ih =>
    intro st hup hy
    simp only [List.all_cons, Bool.and_eq_true] at hy
    cases m with
    | yieldEnv e => simp [isYieldMsg] at hy
    | notify ev =>
      have hstep := reducerStep_notify_detached st ev hup
      have hrest := ih st hup hy.2
      simp [runFrom, hstep, hrest]

theorem goodFinishShape_split (msgs : List UpMsg) (h : goodFinishShape msgs = true) :
    ∃ a b, msgs = a ++ UpMsg.notify (UpEvent.progress ProgressStage.finished) :: b ∧
      a.all (fun m => !isFinNotify m) = true ∧
      b.all (fun m => !isYieldMsg m) = true := by
  induction msgs with
  | nil => cases h
  | cons m rest ih =>
    simp only [goodFinishShape] at h
    split at h <;> rename_i hm
    · have hmeq : m = UpMsg.notify (UpEvent.progress ProgressStage.finished) := by
        cases m with
        | yieldEnv e => simp [isFinNotify] at hm
        | notify ev =>
          cases ev with
          | progress stg =>
            cases stg with
            | started => simp [isFinNotify] at hm
            | finished => rfl
          | update i o u => simp [isFinNotify] at hm
      exact ⟨[], rest, by rw [hmeq]; rfl, rfl, h⟩
    · obtain ⟨a, b, rfl, ha, hb⟩ := ih h
      have hm' : isFinNotify m = false := by simpa using hm
      exact ⟨m :: a, b, rfl, by simp [ha, hm'], hb⟩

theorem yieldsBeforeFinished_append_fin (o1 : List ROut)
    (h : o1.all (fun o => !isFinishedFire o) = true) :
    yieldsBeforeFinished
      (o1 ++ [ROut.fire (DownEvent.progress ProgressStage.finished)]) = true := by
  induction o1 with
  | nil => rfl
  | cons o os ih =>
    simp only [List.all_cons, Bool.and_eq_true] at h
    have ho : isFinishedFire o = false := by simpa using h.1
    simp [yieldsBeforeFinished, ho, ih h.2]

theorem countP_fin_once (o1 : List ROut)
    (h : o1.all (fun o => !isFinishedFire o) = true) :
    (o1 ++ [ROut.fire (DownEvent.progress ProgressStage.finished)]).countP
      isFinishedFire = 1 := by
  rw [List.countP_append]
  have h0 : o1.countP isFinishedFire = 0 := by
    rw [List.countP_eq_zero]
    intro a ha
    have := List.all_eq_true.mp h a ha
    simp at this
    simp [this]
  rw [h0]
  rfl

theorem reducerStep_finished_fire (st : RState) (hup : st.upAttached = true)
    (hp : st.pending = 0) (hdn : st.downOpen = true) :
    reducerStep st (UpMsg.notify (UpEvent.progress ProgressStage.finished)) =
      Except.ok ({ st with done := true, upAttached := false, downOpen := false },
        [ROut.fire (DownEvent.progress ProgressStage.finished)]) := by
  rcases st with ⟨sn, d, p, ua, dn⟩
  cases hup
  cases hdn
  simp only [] at hp
  cases hp
  simp [reducerStep, checkIfFinishedAndNotify]

theorem all_yield_shape (msgs : List UpMsg) (h : msgs.all isYieldMsg = true) :
    noUndefinedUpdates msgs = true ∧ msgs.all (fun m => !isFinNotify m) = true := by
  constructor
  · rw [noUndefinedUpdates, List.all_eq_true]
    intro m hm
    have := List.all_eq_true.mp h m hm
    cases m with
    | yieldEnv e => rfl
    | notify ev => simp [isYieldMsg] at this
  · rw [List.all_eq_true]
    intro m hm
    have := List.all_eq_true.mp h m hm
    cases m with
    | yieldEnv e => rfl
    | notify ev => simp [isYieldMsg] at this

theorem c2aux_reducer (hasUpd : Bool) (msgs : List UpMsg)
    (h1 : hasUpd = true → noUndefinedUpdates msgs = true ∧ goodFinishShape msgs = true)
    (h2 : hasUpd = false → msgs.all isYieldMsg = true) :
    ∃ st outs, run hasUpd msgs = Except.ok (st, outs) ∧
      outs.countP isFinishedFire = 1 ∧ yieldsBeforeFinished outs = true ∧
      st.done = true ∧ st.pending = 0 := by
  cases hasUpd
  · have hy := h2 rfl
    obtain ⟨hnu, hnf⟩ := all_yield_shape msgs hy
    obtain ⟨st1, o1, hrun, hd1, hup1, hdown1, hp1, ho1⟩ :=
      runFrom_no_fin msgs (initState false) hnu hnf rfl
    have hp0 : st1.pending = 0 := hp1
    have hdn : st1.downOpen = true := hdown1
    refine ⟨{ st1 with done := true, downOpen := false },
      ROut.fire (DownEvent.progress ProgressStage.started) ::
        (o1 ++ [ROut.fire (DownEvent.progress ProgressStage.finished)]),
      ?_, ?_, ?_, rfl, hp0⟩
    · simp [run, hrun, checkIfFinishedAndNotify, hp0, hdn]
    · have hall : (ROut.fire (DownEvent.progress ProgressStage.started) :: o1).all
          (fun o => !isFinishedFire o) = true := by
        rw [List.all_cons, ho1]
        rfl
      have hc := countP_fin_once _ hall
      rwa [List.cons_append] at hc
    · have hall : (ROut.fire (DownEvent.progress ProgressStage.started) :: o1).all
          (fun o => !isFinishedFire o) = true := by
        rw [List.all_cons, ho1]
        rfl
      have hc := yieldsBeforeFinished_append_fin _ hall
      rwa [List.cons_append] at hc
  · obtain ⟨hnu, hgf⟩ := h1 rfl
    obtain ⟨a, b, rfl, ha, hb⟩ := goodFinishShape_split msgs hgf
    rw [noUndefinedUpdates, List.all_append, Bool.and_eq_true] at hnu
    obtain ⟨hnuA, hnuB⟩ := hnu
    obtain ⟨st1, o1, hrunA, hd1, hup1, hdown1, hp1, ho1⟩ :=
      runFrom_no_fin a (initState true) hnuA ha rfl
    have hfin := reducerStep_finished_fire st1 hup1 hp1 hdown1
    have hdead := runFrom_dead_tail b
      { st1 with done := true, upAttached := false, downOpen := false } rfl hb
    refine ⟨{ st1 with done := true, upAttached := false, downOpen := false },
      o1 ++ [ROut.fire (DownEvent.progress ProgressStage.finished)],
      ?_, countP_fin_once o1 ho1, yieldsBeforeFinished_append_fin o1 ho1, rfl, hp1⟩
    rw [run, runFrom_append a _ (initState true), hrunA]
    dsimp only
    rw [runFrom, hfin]
    dsimp only
    rw [hdead]
    simp

/-! ## Step equations and run-level lemmas for the adapter -/

theorem checkIfFinishedAndNotifyA_not_done (st : AState) (hd : st.done = false) :
    ConvertLocator.checkIfFinishedAndNotify st = (st, []) := by
  simp [ConvertLocator.checkIfFinishedAndNotify, hd]

theorem adapterStep_notify_detached (extId : String) (st : AState) (ev : AUpEvent)
    (h : st.upAttached = false) :
    adapterStep extId st (AMsg.notify ev) = Except.ok (st, []) := by
  simp [adapterStep, h]

theorem adapterStep_progress_other (extId : String) (st : AState)
    (stage : ProgressStage) (hup : st.upAttached = true) (hd : st.done = false)
    (hs : stage ≠ ProgressStage.finished) :
    adapterStep extId st (AMsg.notify (AUpEvent.progress stage)) =
      Except.ok (st, if st.downOpen then [AOut.fire (ADownEvent.progress stage)] else []) := by
  rcases st with ⟨sn, d, p, ua, dn⟩
  cases hd
  cases hup
  simp [adapterStep, hs, ConvertLocator.checkIfFinishedAndNotify]

theorem adapterStep_finished_fire (extId : String) (st : AState)
    (hup : st.upAttached = true) (hp : st.pending = 0) (hdn : st.downOpen = true) :
    adapterStep extId st (AMsg.notify (AUpEvent.progress ProgressStage.finished)) =
      Except.ok ({ st with done := true, upAttached := false, downOpen := false },
        [AOut.fire (ADownEvent.progress ProgressStage.finished)]) := by
  rcases st with ⟨sn, d, p, ua, dn⟩
  cases hup
  cases hdn
  simp only [] at hp
  cases hp
  simp [adapterStep, ConvertLocator.checkIfFinishedAndNotify]

theorem adapterStep_update_undefined (extId : String) (st : AState) (idx : Nat)
    (o : Option EnvInfo) (hup : st.upAttached = true) :
    adapterStep extId st (AMsg.notify (AUpEvent.update idx o none)) =
      Except.error undefinedUpdateMsg := by
  simp [adapterStep, hup]

theorem adapterStep_update_inrange (extId : String) (st : AState) (idx : Nat)
    (o : Option EnvInfo) (u : EnvInfo) (hup : st.upAttached = true)
    (hd : st.done = false) (h4 : idx < st.seen.length) :
    adapterStep extId st (AMsg.notify (AUpEvent.update idx o (some u))) =
      Except.ok ({ st with seen := st.seen.set idx (ConvertLocator.convertToBasicEnv extId u) },
        if st.downOpen then
          [AOut.fire (ADownEvent.update idx st.seen[idx]
            (ConvertLocator.convertToBasicEnv extId u))]
        else []) := by
  simp [adapterStep, hup, List.getElem?_eq_getElem h4,
    ConvertLocator.checkIfFinishedAndNotify, hd]

theorem adapterStep_update_outrange (extId : String) (st : AState) (idx : Nat)
    (o : Option EnvInfo) (u : EnvInfo) (hup : st.upAttached = true)
    (hd : st.done = false) (h4 : st.seen.length ≤ idx) :
    adapterStep extId st (AMsg.notify (AUpEvent.update idx o (some u))) =
      Except.ok (st, [AOut.log idx]) := by
  rcases st with ⟨sn, d, p, ua, dn⟩
  cases hd
  cases hup
  simp only [] at h4
  simp [adapterStep, List.getElem?_eq_none h4, ConvertLocator.checkIfFinishedAndNotify]

theorem adapterStep_yield (extId : String) (st : AState) (e : EnvInfo) :
    adapterStep extId st (AMsg.yieldEnv e) =
      Except.ok ({ st with seen := st.seen ++ [ConvertLocator.convertToBasicEnv extId e] },
        [AOut.yieldPrim (ConvertLocator.convertToBasicEnv extId e)]) := by
  simp [adapterStep]

theorem adapterStep_error_eq (extId : String) (st : AState) (m : AMsg) (e : String)
    (h : adapterStep extId st m = Except.error e) : e = undefinedUpdateMsg := by
  cases m with
  | yieldEnv e' => rw [adapterStep_yield] at h; cases h
  | notify ev =>
    by_cases hup : st.upAttached
    · cases ev with
      | progress stage => cases stage <;> simp [adapterStep, hup] at h
      | update idx o upd =>
        cases upd with
        | none =>
          rw [adapterStep_update_undefined extId st idx o hup] at h
          exact (Except.error.injEq _ _ ▸ h :).symm
        | some u =>
          rcases hg : st.seen[idx]? with _ | oe <;> simp [adapterStep, hup, hg] at h
    · rw [adapterStep_notify_detached extId st ev (Bool.not_eq_true _ ▸ hup)] at h
      cases h

theorem adapterStep_ok_of_noUndef (extId : String) (st : AState) (m : AMsg)
    (hm : (match m with
      | AMsg.notify (AUpEvent.update _ _ none) => false
      | _ => true) = true) :
    ∃ p, adapterStep extId st m = Except.ok p := by
  cases m with
  | yieldEnv e' => exact ⟨_, adapterStep_yield extId st e'⟩
  | notify ev =>
    by_cases hup : st.upAttached
    · cases ev with
      | progress stage => cases stage <;> simp [adapterStep, hup]
      | update idx o upd =>
        cases upd with
        | none => simp at hm
        | some u => rcases hg : st.seen[idx]? with _ | oe <;> simp [adapterStep, hup, hg]
    · exact ⟨_, adapterStep_notify_detached extId st ev (Bool.not_eq_true _ ▸ hup)⟩

theorem adapterStep_no_fin_ok (extId : String) (st : AState) (m : AMsg) (st1 : AState)
    (outs : List AOut) (h : adapterStep extId st m = Except.ok (st1, outs))
    (hd : st.done = false) (hm : isFinNotifyA m = false) :
    st1.done = false ∧ st1.upAttached = st.upAttached ∧ st1.downOpen = st.downOpen ∧
      st1.pending = st.pending ∧ outs.all (fun o => !isFinishedFireA o) = true := by
  cases m with
  | yieldEnv e =>
    rw [adapterStep_yield] at h
    simp only [Except.ok.injEq, Prod.mk.injEq] at h
    obtain ⟨rfl, rfl⟩ := h
    simp [hd, isFinishedFireA]
  | notify ev =>
    by_cases hup : st.upAttached
    · cases ev with
      | progress stage =>
        have hs : stage ≠ ProgressStage.finished := by
          cases stage
          · intro hc; cases hc
          · simp [isFinNotifyA] at hm
        rw [adapterStep_progress_other extId st stage hup hd hs] at h
        simp only [Except.ok.injEq, Prod.mk.injEq] at h
        obtain ⟨rfl, rfl⟩ := h
        refine ⟨hd, rfl, rfl, rfl, ?_⟩
        cases stage
        · split <;> simp [isFinishedFireA]
        · exact absurd rfl hs
      | update idx o upd =>
        cases upd with
        | none =>
          rw [adapterStep_update_undefined extId st idx o hup] at h
          cases h
        | some u =>
          rcases Nat.lt_or_ge idx st.seen.length with hlt | hge
          · rw [adapterStep_update_inrange extId st idx o u hup hd hlt] at h
            simp only [Except.ok.injEq, Prod.mk.injEq] at h
            obtain ⟨rfl, rfl⟩ := h
            refine ⟨hd, rfl, rfl, rfl, ?_⟩
            split <;> simp [isFinishedFireA]
          · rw [adapterStep_update_outrange extId st idx o u hup hd hge] at h
            simp only [Except.ok.injEq, Prod.mk.injEq] at h
            obtain ⟨rfl, rfl⟩ := h
            simp [hd, isFinishedFireA]
    · rw [adapterStep_notify_detached extId st ev (Bool.not_eq_true _ ▸ hup)] at h
      simp only [Except.ok.injEq, Prod.mk.injEq] at h
      obtain ⟨rfl, rfl⟩ := h
      simp [hd]

theorem runFromA_append (extId : String) (a : List AMsg) :
    ∀ (b : List AMsg) (st : AState),
      runFromA extId st (a ++ b) =
        match runFromA extId st a with
        | Except.ok (st1, outs1) =>
          match runFromA extId st1 b with
          | Except.ok (st2, outs2) => Except.ok (st2, outs1 ++ outs2)
          | Except.error e => Except.error e
        | Except.error e => Except.error e := by
  induction a with
  | nil =>
    intro b st
    simp only [List.nil_append, runFromA]
    cases hb : runFromA extId st b with
    | ok p => cases p; simp
    | error e => rfl
  | cons m a' ih =>
    intro b st
    simp only [List.cons_append, runFromA]
    cases hstep : adapterStep extId st m with
    | error e => rfl
    | ok p =>
      obtain ⟨st1, o1⟩ := p
      dsimp only [List.append_eq]
      rw [ih b st1]
      cases hA : runFromA extId st1 a' with
      | error e => rfl
      | ok q =>
        obtain ⟨stA, oA⟩ := q
        dsimp only
        cases hB : runFromA extId stA b with
        | error e => rfl
        | ok r =>
          obtain ⟨stB, oB⟩ := r
          simp [List.append_assoc]

theorem runFromA_error_eq (extId : String) (msgs : List AMsg) :
    ∀ (st : AState) (e : String),
      runFromA extId st msgs = Except.error e → e = undefinedUpdateMsg := by
  induction msgs with
  | nil => intro st e h; cases h
  | cons m rest ih =>
    intro st e h
    simp only [runFromA] at h
    cases hstep : adapterStep extId st m with
    | error e' =>
      rw [hstep] at h
      cases h
      exact adapterStep_error_eq extId st m e hstep
    | ok p =>
      obtain ⟨st1, o1⟩ := p
      rw [hstep] at h
      dsimp only at h
      cases hrest : runFromA extId st1 rest with
      | error e' =>
        rw [hrest] at h
        cases h
        exact ih st1 e hrest
      | ok q =>
        obtain ⟨st2, o2⟩ := q
        rw [hrest] at h
        cases h

theorem runFromA_ok_of_noUndef (extId : String) (msgs : List AMsg) : ∀ st : AState,
    noUndefinedUpdatesA msgs = true → ∃ p, runFromA extId st msgs = Except.ok p := by
  induction msgs with
  | nil => intro st _; exact ⟨(st, []), rfl⟩
  | cons m rest ih =>
    intro st hnu
    simp only [noUndefinedUpdatesA, List.all_cons, Bool.and_eq_true] at hnu
    obtain ⟨⟨st1, o1⟩, hstep⟩ := adapterStep_ok_of_noUndef extId st m hnu.1
    obtain ⟨⟨st2, o2⟩, hrest⟩ := ih st1 hnu.2
    exact ⟨(st2, o1 ++ o2), by simp [runFromA, hstep, hrest]⟩

theorem runFromA_no_fin (extId : String) (msgs : List AMsg) : ∀ st : AState,
    noUndefinedUpdatesA msgs = true → msgs.all (fun m => !isFinNotifyA m) = true →
    st.done = false →
    ∃ st1 outs, runFromA extId st msgs = Except.ok (st1, outs) ∧ st1.done = false ∧
      st1.upAttached = st.upAttached ∧ st1.downOpen = st.downOpen ∧
      st1.pending = st.pending ∧ outs.all (fun o => !isFinishedFireA o) = true := by
  induction msgs with
  | nil => intro st _ _ hd; exact ⟨st, [], rfl, hd, rfl, rfl, rfl, rfl⟩
  | cons m rest ih =>
    intro st hnu hnf hd
    simp only [noUndefinedUpdatesA, List.all_cons, Bool.and_eq_true] at hnu hnf
    obtain ⟨⟨st1, o1⟩, hstep⟩ := adapterStep_ok_of_noUndef extId st m hnu.1
    have hm : isFinNotifyA m = false := by simpa using hnf.1
    obtain ⟨hd1, hup1, hdown1, hp1, ho1⟩ :=
      adapterStep_no_fin_ok extId st m st1 o1 hstep hd hm
    obtain ⟨st2, o2, hrun, hd2, hup2, hdown2, hp2, ho2⟩ :=
      ih st1 (by simp [noUndefinedUpdatesA, hnu.2]) hnf.2 hd1
    refine ⟨st2, o1 ++ o2, by simp [runFromA, hstep, hrun], hd2,
      hup2.trans hup1, hdown2.trans hdown1, hp2.trans hp1, ?_⟩
    simp [List.all_append, ho1, ho2]

theorem runFromA_dead_tail (extId : String) (msgs : List AMsg) : ∀ st : AState,
    st.upAttached = false → msgs.all (fun m => !isYieldMsgA m) = true →
    runFromA extId st msgs = Except.ok (st, []) := by
  induction msgs with
  | nil => intro st _ _; rfl
  | cons m rest ih =>
    intro st hup hy
    simp only [List.all_cons, Bool.and_eq_true] at hy
    cases m with
    | yieldEnv e => simp [isYieldMsgA] at hy
    | notify ev =>
      have hstep := adapterStep_notify_detached extId st ev hup
      have hrest := ih st hup hy.2
      simp [runFromA, hstep, hrest]

theorem goodFinishShapeA_split (msgs : List AMsg) (h : goodFinishShapeA msgs = true) :
    ∃ a b, msgs = a ++ AMsg.notify (AUpEvent.progress ProgressStage.finished) :: b ∧
      a.all (fun m => !isFinNotifyA m) = true ∧
      b.all (fun m => !isYieldMsgA m) = true := by
  induction msgs with
  | nil => cases h
  | cons m rest ih =>
    simp only [goodFinishShapeA] at h
    split at h <;> rename_i hm
    · have hmeq : m = AMsg.notify (AUpEvent.progress ProgressStage.finished) := by
        cases m with
        | yieldEnv e => simp [isFinNotifyA] at hm
        | notify ev =>
          cases ev with
          | progress stg =>
            cases stg with
            | started => simp [isFinNotifyA] at hm
            | finished => rfl
          | update i o u => simp [isFinNotifyA] at hm
      exact ⟨[], rest, by rw [hmeq]; rfl, rfl, h⟩
    · obtain ⟨a, b, rfl, ha, hb⟩ := ih h
      have hm' : isFinNotifyA m = false := by simpa using hm
      exact ⟨m :: a, b, rfl, by simp [ha, hm'], hb⟩

theorem yieldsBeforeFinishedA_append_fin (o1 : List AOut)
    (h : o1.all (fun o => !isFinishedFireA o) = true) :
    yieldsBeforeFinishedA
      (o1 ++ [AOut.fire (ADownEvent.progress ProgressStage.finished)]) = true := by
  induction o1 with
  | nil => rfl
  | cons o os ih =>
    simp only [List.all_cons, Bool.and_eq_true] at h
    have ho : isFinishedFireA o = false := by simpa using h.1
    simp [yieldsBeforeFinishedA, ho, ih h.2]

theorem countP_finA_once (o1 : List AOut)
    (h : o1.all (fun o => !isFinishedFireA o) = true) :
    (o1 ++ [AOut.fire (ADownEvent.progress ProgressStage.finished)]).countP
      isFinishedFireA = 1 := by
  rw [List.countP_append]
  have h0 : o1.countP isFinishedFireA = 0 := by
    rw [List.countP_eq_zero]
    intro a ha
    have := List.all_eq_true.mp h a ha
    simp at this
    simp [this]
  rw [h0]
  rfl

theorem all_yield_shapeA (msgs : List AMsg) (h : msgs.all isYieldMsgA = true) :
    noUndefinedUpdatesA msgs = true ∧ msgs.all (fun m => !isFinNotifyA m) = true := by
  constructor
  · rw [noUndefinedUpdatesA, List.all_eq_true]
    intro m hm
    have := List.all_eq_true.mp h m hm
    cases m with
    | yieldEnv e => rfl
    | notify ev => simp [isYieldMsgA] at this
  · rw [List.all_eq_true]
    intro m hm
    have := List.all_eq_true.mp h m hm
    cases m with
    | yieldEnv e => rfl
    | notify ev => simp [isYieldMsgA] at this

theorem c2aux_adapter (extId : String) (hasUpd : Bool) (msgs : List AMsg)
    (h1 : hasUpd = true → noUndefinedUpdatesA msgs = true ∧ goodFinishShapeA msgs = true)
    (h2 : hasUpd = false → msgs.all isYieldMsgA = true) :
    ∃ st outs, runA extId hasUpd msgs = Except.ok (st, outs) ∧
      outs.countP isFinishedFireA = 1 ∧ yieldsBeforeFinishedA outs = true ∧
      st.done = true ∧ st.pending = 0 := by
  cases hasUpd
  · have hy := h2 rfl
    obtain ⟨hnu, hnf⟩ := all_yield_shapeA msgs hy
    obtain ⟨st1, o1, hrun, hd1, hup1, hdown1, hp1, ho1⟩ :=
      runFromA_no_fin extId msgs (initStateA false) hnu hnf rfl
    have hp0 : st1.pending = 0 := hp1
    have hdn : st1.downOpen = true := hdown1
    refine ⟨{ st1 with done := true, downOpen := false },
      AOut.fire (ADownEvent.progress ProgressStage.started) ::
        (o1 ++ [AOut.fire (ADownEvent.progress ProgressStage.finished)]),
      ?_, ?_, ?_, rfl, hp0⟩
    · simp [runA, hrun, ConvertLocator.checkIfFinishedAndNotify, hp0, hdn]
    · have hall : (AOut.fire (ADownEvent.progress ProgressStage.started) :: o1).all
          (fun o => !isFinishedFireA o) = true := by
        rw [List.all_cons, ho1]
        rfl
      have hc := countP_finA_once _ hall
      rwa [List.cons_append] at hc
    · have hall : (AOut.fire (ADownEvent.progress ProgressStage.started) :: o1).all
          (fun o => !isFinishedFireA o) = true := by
        rw [List.all_cons, ho1]
        rfl
      have hc := yieldsBeforeFinishedA_append_fin _ hall
      rwa [List.cons_append] at hc
  · obtain ⟨hnu, hgf⟩ := h1 rfl
    obtain ⟨a, b, rfl, ha, hb⟩ := goodFinishShapeA_split msgs hgf
    rw [noUndefinedUpdatesA, List.all_append, Bool.and_eq_true] at hnu
    obtain ⟨hnuA, hnuB⟩ := hnu
    obtain ⟨st1, o1, hrunA, hd1, hup1, hdown1, hp1, ho1⟩ :=
      runFromA_no_fin extId a (initStateA true) hnuA ha rfl
    have hfin := adapterStep_finished_fire extId st1 hup1 hp1 hdown1
    have hdead := runFromA_dead_tail extId b
      { st1 with done := true, upAttached := false, downOpen := false } rfl hb
    refine ⟨{ st1 with done := true, upAttached := false, downOpen := false },
      o1 ++ [AOut.fire (ADownEvent.progress ProgressStage.finished)],
      ?_, countP_finA_once o1 ho1, yieldsBeforeFinishedA_append_fin o1 ho1, rfl, hp1⟩
    rw [runA, runFromA_append extId a _ (initStateA true), hrunA]
    dsimp only
    rw [runFromA, hfin]
    dsimp only
    rw [hdead]
    simp

/-! ## Claim C2 -/

/-- C2: for every finite upstream trace of either stage — with a notification
source (well-behaved completion shape: a `discoveryFinished` notification
arrives, no primary value after it, no `undefined` update) or without one
(primary values only) — the stage emits `discoveryFinished` exactly once, no
primary yield occurs after it (the primary sequence is exhausted first), and
at that point the completion tracker shows `done` with a zero in-flight
counter; the channel is disposed on firing, so a second delivery is
impossible. -/
theorem c2_finished_exactly_once :
    (∀ (hasUpd : Bool) (msgs : List UpMsg),
      (hasUpd = true → noUndefinedUpdates msgs = true ∧ goodFinishShape msgs = true) →
      (hasUpd = false → msgs.all isYieldMsg = true) →
      ∃ st outs, run hasUpd msgs = Except.ok (st, outs) ∧
        outs.countP isFinishedFire = 1 ∧ yieldsBeforeFinished outs = true ∧
        st.done = true ∧ st.pending = 0) ∧
    (∀ (extId : String) (hasUpd : Bool) (msgs : List AMsg),
      (hasUpd = true → noUndefinedUpdatesA msgs = true ∧ goodFinishShapeA msgs = true) →
      (hasUpd = false → msgs.all isYieldMsgA = true) →
      ∃ st outs, runA extId hasUpd msgs = Except.ok (st, outs) ∧
        outs.countP isFinishedFireA = 1 ∧ yieldsBeforeFinishedA outs = true ∧
        st.done = true ∧ st.pending = 0) :=
  ⟨c2aux_reducer, c2aux_adapter⟩

/-- Witness for C2: a reducer trace with a notification source (two records,
one collision, then upstream Finished) and an adapter trace without one. -/
theorem c2_finished_exactly_once_witness :
    (∃ st outs,
      run true [UpMsg.yieldEnv ⟨"a", none, some "venv", "x"⟩,
        UpMsg.yieldEnv ⟨"a", none, some "system", "y"⟩,
        UpMsg.notify (UpEvent.progress ProgressStage.finished)] = Except.ok (st, outs) ∧
      outs.countP isFinishedFire = 1 ∧ yieldsBeforeFinished outs = true ∧
      st.done = true ∧ st.pending = 0) ∧
    (∃ st outs,
      runA "ext" false [AMsg.yieldEnv ⟨"/p", none, ["venv"]⟩] = Except.ok (st, outs) ∧
      outs.countP isFinishedFireA = 1 ∧ yieldsBeforeFinishedA outs = true ∧
      st.done = true ∧ st.pending = 0) :=
  ⟨c2_finished_exactly_once.1 true _ (fun _ => ⟨by decide, by decide⟩)
      (fun h => Bool.noConfusion h),
    c2_finished_exactly_once.2 "ext" false _ (fun h => Bool.noConfusion h)
      (fun _ => by decide)⟩

/-! ## Claim C7 -/

theorem c7aux_reducer_error (a : List UpMsg) :
    ∀ (st : RState) (b : List UpMsg) (idx : Nat) (o : Option BasicEnvInfo),
      st.upAttached = true → st.done = false →
      a.all (fun m => !isFinNotify m) = true →
      runFrom st (a ++ UpMsg.notify (UpEvent.update idx o none) :: b) =
        Except.error undefinedUpdateMsg := by
  induction a with
  | nil =>
    intro st b idx o hup hd ha
    simp only [List.nil_append, runFrom]
    rw [reducerStep_update_undefined st idx o hup]
  | cons m a' ih =>
    intro st b idx o hup hd ha
    simp only [List.all_cons, Bool.and_eq_true] at ha
    have hm : isFinNotify m = false := by simpa using ha.1
    simp only [List.cons_append, runFrom]
    cases hstep : reducerStep st m with
    | error e =>
      rw [reducerStep_error_eq st m e hstep]
    | ok p =>
      obtain ⟨st1, o1⟩ := p
      dsimp only [List.append_eq]
      obtain ⟨hd1, hup1, -, -, -⟩ := reducerStep_no_fin_ok st m st1 o1 hstep hd hm
      rw [ih st1 b idx o (hup1.trans hup) hd1 ha.2]

theorem c7aux_adapter_error (extId : String) (a : List AMsg) :
    ∀ (st : AState) (b : List AMsg) (idx : Nat) (o : Option EnvInfo),
      st.upAttached = true → st.done = false →
      a.all (fun m => !isFinNotifyA m) = true →
      runFromA extId st (a ++ AMsg.notify (AUpEvent.update idx o none) :: b) =
        Except.error undefinedUpdateMsg := by
  induction a with
  | nil =>
    intro st b idx o hup hd ha
    simp only [List.nil_append, runFromA]
    rw [adapterStep_update_undefined extId st idx o hup]
  | cons m a' ih =>
    intro st b idx o hup hd ha
    simp only [List.all_cons, Bool.and_eq_true] at ha
    have hm : isFinNotifyA m = false := by simpa using ha.1
    simp only [List.cons_append, runFromA]
    cases hstep : adapterStep extId st m with
    | error e =>
      rw [adapterStep_error_eq extId st m e hstep]
    | ok p =>
      obtain ⟨st1, o1⟩ := p
      dsimp only [List.append_eq]
      obtain ⟨hd1, hup1, -, -, -⟩ := adapterStep_no_fin_ok extId st m st1 o1 hstep hd hm
      rw [ih st1 b idx o (hup1.trans hup) hd1 ha.2]

theorem run_ok_of_noUndef (hasUpd : Bool) (msgs : List UpMsg)
    (hnu : noUndefinedUpdates msgs = true) : ∃ p, run hasUpd msgs = Except.ok p := by
  obtain ⟨⟨st, outs⟩, h⟩ := runFrom_ok_of_noUndef msgs (initState hasUpd) hnu
  cases hasUpd
  · refine ⟨((checkIfFinishedAndNotify { st with done := true }).1,
      ROut.fire (DownEvent.progress ProgressStage.started) ::
        (outs ++ (checkIfFinishedAndNotify { st with done := true }).2)), ?_⟩
    simp [run, h]
  · exact ⟨(st, outs), by simp [run, h]⟩

theorem runA_ok_of_noUndef (extId : String) (hasUpd : Bool) (msgs : List AMsg)
    (hnu : noUndefinedUpdatesA msgs = true) :
    ∃ p, runA extId hasUpd msgs = Except.ok p := by
  obtain ⟨⟨st, outs⟩, h⟩ := runFromA_ok_of_noUndef extId msgs (initStateA hasUpd) hnu
  cases hasUpd
  · refine ⟨((ConvertLocator.checkIfFinishedAndNotify { st with done := true }).1,
      AOut.fire (ADownEvent.progress ProgressStage.started) ::
        (outs ++ (ConvertLocator.checkIfFinishedAndNotify { st with done := true }).2)), ?_⟩
    simp [runA, h]
  · exact ⟨(st, outs), by simp [runA, h]⟩

/-- C7: in both stages, an upstream `UpdateEvent` whose `update` payload is
`undefined`, delivered while the listener is attached (until then no
`discoveryFinished` has detached it), aborts the run with the fatal
protocol-violation error; and this is the only notification-channel
condition that aborts — any trace free of `undefined` updates runs to
completion without an error. -/
theorem c7_undefined_update_raises :
    (∀ (a b : List UpMsg) (idx : Nat) (o : Option BasicEnvInfo),
      a.all (fun m => !isFinNotify m) = true →
      run true (a ++ UpMsg.notify (UpEvent.update idx o none) :: b) =
        Except.error undefinedUpdateMsg) ∧
    (∀ (hasUpd : Bool) (msgs : List UpMsg), noUndefinedUpdates msgs = true →
      ∃ p, run hasUpd msgs = Except.ok p) ∧
    (∀ (extId : String) (a b : List AMsg) (idx : Nat) (o : Option EnvInfo),
      a.all (fun m => !isFinNotifyA m) = true →
      runA extId true (a ++ AMsg.notify (AUpEvent.update idx o none) :: b) =
        Except.error undefinedUpdateMsg) ∧
    (∀ (extId : String) (hasUpd : Bool) (msgs : List AMsg),
      noUndefinedUpdatesA msgs = true → ∃ p, runA extId hasUpd msgs = Except.ok p) := by
  refine ⟨?_, run_ok_of_noUndef, ?_, runA_ok_of_noUndef⟩
  · intro a b idx o ha
    have h := c7aux_reducer_error a (initState true) b idx o rfl rfl ha
    simp [run, h]
  · intro extId a b idx o ha
    have h := c7aux_adapter_error extId a (initStateA true) b idx o rfl rfl ha
    simp [runA, h]

/-- Witness for C7: a concrete `undefined` update aborts both stages; the
same traces without it complete. -/
theorem c7_undefined_update_raises_witness :
    run true [UpMsg.yieldEnv ⟨"a", none, some "venv", "x"⟩,
        UpMsg.notify (UpEvent.update 0 none none)] =
      Except.error undefinedUpdateMsg ∧
    (∃ p, run true [UpMsg.yieldEnv ⟨"a", none, some "venv", "x"⟩] = Except.ok p) ∧
    runA "ext" true [AMsg.notify (AUpEvent.update 3 none none)] =
      Except.error undefinedUpdateMsg ∧
    (∃ p, runA "ext" true [AMsg.yieldEnv ⟨"/p", none, ["venv"]⟩] = Except.ok p) :=
  ⟨c7_undefined_update_raises.1 [UpMsg.yieldEnv ⟨"a", none, some "venv", "x"⟩] []
      0 none (by decide),
    c7_undefined_update_raises.2.1 true _ (by decide),
    c7_undefined_update_raises.2.2.1 "ext" [] [] 3 none (by decide),
    c7_undefined_update_raises.2.2.2 "ext" true _ (by decide)⟩

/-! ## Claim C8 -/

/-- C8: in both stages, an upstream `UpdateEvent` targeting an index with no
buffer entry (not yet yielded on the stage's own primary sequence) is logged
and dropped: the step leaves the state — in particular the buffer — exactly
unchanged and emits only the log, and the rest of the trace then runs
exactly as it would have without the event (same primary yields, same
notifications, same completion). -/
theorem c8_unseen_index_logged_dropped :
    (∀ (st : RState) (idx : Nat) (o : Option BasicEnvInfo) (u : BasicEnvInfo)
        (b : List UpMsg),
      st.upAttached = true → st.done = false → st.seen.length ≤ idx →
      reducerStep st (UpMsg.notify (UpEvent.update idx o (some u))) =
          Except.ok (st, [ROut.log idx]) ∧
        runFrom st (UpMsg.notify (UpEvent.update idx o (some u)) :: b) =
          (runFrom st b).map (fun p => (p.1, ROut.log idx :: p.2))) ∧
    (∀ (extId : String) (st : AState) (idx : Nat) (o : Option EnvInfo) (u : EnvInfo)
        (b : List AMsg),
      st.upAttached = true → st.done = false → st.seen.length ≤ idx →
      adapterStep extId st (AMsg.notify (AUpEvent.update idx o (some u))) =
          Except.ok (st, [AOut.log idx]) ∧
        runFromA extId st (AMsg.notify (AUpEvent.update idx o (some u)) :: b) =
          (runFromA extId st b).map (fun p => (p.1, AOut.log idx :: p.2))) := by
  constructor
  · intro st idx o u b hup hd hlen
    have hstep := reducerStep_update_outrange st idx o u hup hd hlen
    refine ⟨hstep, ?_⟩
    simp only [runFrom, hstep]
    cases hb : runFrom st b with
    | error e => rfl
    | ok p => cases p; simp [Except.map]
  · intro extId st idx o u b hup hd hlen
    have hstep := adapterStep_update_outrange extId st idx o u hup hd hlen
    refine ⟨hstep, ?_⟩
    simp only [runFromA, hstep]
    cases hb : runFromA extId st b with
    | error e => rfl
    | ok p => cases p; simp [Except.map]

/-- Witness for C8: an update for index 5 while only one record has been
yielded is logged, dropped, and the remaining trace completes identically. -/
theorem c8_unseen_index_logged_dropped_witness :
    (reducerStep ⟨[⟨"a", none, ["venv"], some ["x"], "x"⟩], false, 0, true, true⟩
        (UpMsg.notify (UpEvent.update 5 none (some ⟨"b", none, some "conda", "y"⟩))) =
        Except.ok (⟨[⟨"a", none, ["venv"], some ["x"], "x"⟩], false, 0, true, true⟩,
          [ROut.log 5]) ∧
      runFrom ⟨[⟨"a", none, ["venv"], some ["x"], "x"⟩], false, 0, true, true⟩
        [UpMsg.notify (UpEvent.update 5 none (some ⟨"b", none, some "conda", "y"⟩)),
          UpMsg.notify (UpEvent.progress ProgressStage.finished)] =
        (runFrom ⟨[⟨"a", none, ["venv"], some ["x"], "x"⟩], false, 0, true, true⟩
          [UpMsg.notify (UpEvent.progress ProgressStage.finished)]).map
          (fun p => (p.1, ROut.log 5 :: p.2))) ∧
    (adapterStep "ext" ⟨[], false, 0, true, true⟩
        (AMsg.notify (AUpEvent.update 0 none (some ⟨"/p", none, ["venv"]⟩))) =
        Except.ok (⟨[], false, 0, true, true⟩, [AOut.log 0]) ∧
      runFromA "ext" ⟨[], false, 0, true, true⟩
        [AMsg.notify (AUpEvent.update 0 none (some ⟨"/p", none, ["venv"]⟩))] =
        (runFromA "ext" ⟨[], false, 0, true, true⟩ []).map
          (fun p => (p.1, AOut.log 0 :: p.2))) :=
  ⟨c8_unseen_index_logged_dropped.1
      ⟨[⟨"a", none, ["venv"], some ["x"], "x"⟩], false, 0, true, true⟩
      5 none ⟨"b", none, some "conda", "y"⟩
      [UpMsg.notify (UpEvent.progress ProgressStage.finished)] rfl rfl (by decide),
    c8_unseen_index_logged_dropped.2 "ext" ⟨[], false, 0, true, true⟩
      0 none ⟨"/p", none, ["venv"]⟩ [] rfl rfl (by decide)⟩

/-! ## Claim C5 -/

/-- The update events a reducer run delivers on its own notification
channel, as (index, old, update) triples, in delivery order. -/
def firedUpdates (hasUpd : Bool) (msgs : List UpMsg) :
    List (Nat × CompositeEnvInfo × CompositeEnvInfo) :=
  match run hasUpd msgs with
  | Except.ok (_, outs) =>
    outs.filterMap fun o =>
      match o with
      | ROut.fire (DownEvent.update i a b) => some (i, a, b)
      | _ => none
  | Except.error _ => []

/-- The final buffer of a reducer run. -/
def finalSeen (hasUpd : Bool) (msgs : List UpMsg) : List CompositeEnvInfo :=
  match run hasUpd msgs with
  | Except.ok (st, _) => st.seen
  | Except.error _ => []

/-- C5 counterexample.  Upstream yields three records with identities a, a, b
(upstream indices 0, 1, 2); the reducer collapses the duplicate, emitting
identity a at its own index 0 and identity b at its own index 1.  The
upstream then sends an update for its index 1 — a record of identity a.  The
logical record of that update lives at the reducer's own index 0, but the
reducer republishes the event at the upstream index 1 unchanged, overwriting
its identity-b buffer entry: the republished index is the upstream index,
not the reducer's own index for that logical record. -/
theorem c5_reindex_counterexample :
    (primYields true [UpMsg.yieldEnv ⟨"a", none, some "venv", "x"⟩,
        UpMsg.yieldEnv ⟨"a", none, some "system", "y"⟩,
        UpMsg.yieldEnv ⟨"b", none, some "conda", "x"⟩,
        UpMsg.notify (UpEvent.update 1 none (some ⟨"a", none, some "pyenv", "z"⟩))]).map
        envIdC = [("a", none), ("b", none)] ∧
    envIdB ⟨"a", none, some "system", "y"⟩ = ("a", none) ∧
    (firedUpdates true [UpMsg.yieldEnv ⟨"a", none, some "venv", "x"⟩,
        UpMsg.yieldEnv ⟨"a", none, some "system", "y"⟩,
        UpMsg.yieldEnv ⟨"b", none, some "conda", "x"⟩,
        UpMsg.notify (UpEvent.update 1 none (some ⟨"a", none, some "pyenv", "z"⟩))]).map
        (fun p => p.1) = [0, 1] ∧
    ((firedUpdates true [UpMsg.yieldEnv ⟨"a", none, some "venv", "x"⟩,
        UpMsg.yieldEnv ⟨"a", none, some "system", "y"⟩,
        UpMsg.yieldEnv ⟨"b", none, some "conda", "x"⟩,
        UpMsg.notify (UpEvent.update 1 none
          (some ⟨"a", none, some "pyenv", "z"⟩))]).getLast?).map
        (fun p => envIdC p.2.2) = some ("a", none) ∧
    (finalSeen true [UpMsg.yieldEnv ⟨"a", none, some "venv", "x"⟩,
        UpMsg.yieldEnv ⟨"a", none, some "system", "y"⟩,
        UpMsg.yieldEnv ⟨"b", none, some "conda", "x"⟩,
        UpMsg.notify (UpEvent.update 1 none (some ⟨"a", none, some "pyenv", "z"⟩))]).map
        envIdC = [("a", none), ("a", none)] := by
  refine ⟨by decide, rfl, by decide, by decide, by decide⟩

/-- C5 amended: for an upstream `UpdateEvent` whose index is within the
reducer's own emission count, the reducer republishes the converted update at
the upstream event's index unchanged, replacing the buffer entry at that same
index — no re-indexing to the logical record's own downstream position takes
place, so when the reducer has collapsed an earlier upstream index the
republished index can denote a different logical record. -/
theorem c5_republish_at_upstream_index (st : RState) (idx : Nat)
    (o : Option BasicEnvInfo) (u : BasicEnvInfo) (hup : st.upAttached = true)
    (hd : st.done = false) (hdn : st.downOpen = true) (h4 : idx < st.seen.length) :
    reducerStep st (UpMsg.notify (UpEvent.update idx o (some u))) =
      Except.ok ({ st with seen := st.seen.set idx (convertBasicToComposite u) },
        [ROut.fire (DownEvent.update idx st.seen[idx] (convertBasicToComposite u))]) := by
  rw [reducerStep_update_inrange st idx o u hup hd h4, hdn]
  simp

/-- Witness for C5 at a concrete in-range update. -/
theorem c5_republish_at_upstream_index_witness :
    reducerStep
        ⟨[⟨"a", none, ["venv"], some ["x"], "x"⟩,
          ⟨"b", none, ["conda"], some ["x"], "x"⟩], false, 0, true, true⟩
        (UpMsg.notify (UpEvent.update 1 none (some ⟨"a", none, some "pyenv", "z"⟩))) =
      Except.ok
        (⟨[⟨"a", none, ["venv"], some ["x"], "x"⟩,
          convertBasicToComposite ⟨"a", none, some "pyenv", "z"⟩], false, 0, true, true⟩,
        [ROut.fire (DownEvent.update 1 ⟨"b", none, ["conda"], some ["x"], "x"⟩
          (convertBasicToComposite ⟨"a", none, some "pyenv", "z"⟩))]) :=
  c5_republish_at_upstream_index
    ⟨[⟨"a", none, ["venv"], some ["x"], "x"⟩,
      ⟨"b", none, ["conda"], some ["x"], "x"⟩], false, 0, true, true⟩
    1 none ⟨"a", none, some "pyenv", "z"⟩ rfl rfl rfl (by decide)

/-! ## Identity lemmas -/

theorem envIdC_convert (e : BasicEnvInfo) :
    envIdC (convertBasicToComposite e) = envIdB e := rfl

theorem areSameEnv_iff (a b : CompositeEnvInfo) :
    areSameEnv a b = true ↔ envIdC a = envIdC b := by
  simp [areSameEnv, envIdC, Prod.ext_iff]

theorem areSameEnv_false_iff (a b : CompositeEnvInfo) :
    areSameEnv a b = false ↔ envIdC a ≠ envIdC b := by
  constructor
  · intro hf hc
    have := (areSameEnv_iff a b).mpr hc
    rw [hf] at this
    cases this
  · intro hne
    cases h : areSameEnv a b
    · rfl
    · exact absurd ((areSameEnv_iff a b).mp h) hne

theorem set_get_self (l : List α) : ∀ (i : Nat) (h : i < l.length),
    l.set i (l.get ⟨i, h⟩) = l := by
  induction l with
  | nil => intro i h; cases h
  | cons y ys ih =>
    intro i h
    cases i with
    | zero => rfl
    | succ j =>
      simp only [List.set, List.get]
      rw [ih j (Nat.lt_of_succ_lt_succ h)]

theorem map_set_same (f : α → β) (l : List α) (i : Nat) (x : α) (h : i < l.length)
    (hx : f x = f (l.get ⟨i, h⟩)) : (l.set i x).map f = l.map f := by
  rw [List.map_set, hx]
  have hlen : i < (l.map f).length := by simpa using h
  have hg : f (l.get ⟨i, h⟩) = (l.map f).get ⟨i, hlen⟩ := by simp
  rw [hg, set_get_self]

theorem check_seen (s : RState) : (checkIfFinishedAndNotify s).1.seen = s.seen := by
  unfold checkIfFinishedAndNotify
  split <;> rfl

theorem check_no_yield (s : RState) :
    (checkIfFinishedAndNotify s).2.filterMap yieldOf = [] := by
  unfold checkIfFinishedAndNotify
  split
  · split <;> rfl
  · rfl

theorem envIdC_resolve_old (a b : CompositeEnvInfo) :
    envIdC (resolveEnvCollision a b).2.1 = envIdC a := by
  rw [resolveEnvCollision_old_eq]
  rfl

theorem envIdC_resolve_merged (a b : CompositeEnvInfo) :
    envIdC (resolveEnvCollision a b).1 = envIdC a ∨
      envIdC (resolveEnvCollision a b).1 = envIdC b := by
  obtain ⟨env, henv, hm⟩ := resolveEnvCollision_merged_eq a b
  rw [hm]
  rcases henv with rfl | rfl
  · exact Or.inl rfl
  · exact Or.inr rfl

theorem resolveDifferences_ids (i : Nat) (newEnv : CompositeEnvInfo) (st : RState)
    (h : i < st.seen.length)
    (hid : envIdC (st.seen.get ⟨i, h⟩) = envIdC newEnv) :
    (resolveDifferencesInBackground i newEnv st).1.seen.map envIdC =
        st.seen.map envIdC ∧
      (resolveDifferencesInBackground i newEnv st).2.filterMap yieldOf = [] := by
  have hold : envIdC (resolveEnvCollision st.seen[i] newEnv).2.1 =
      envIdC (st.seen.get ⟨i, h⟩) := envIdC_resolve_old _ _
  have hmerged : envIdC (resolveEnvCollision st.seen[i] newEnv).1 =
      envIdC (st.seen.get ⟨i, h⟩) := by
    rcases envIdC_resolve_merged st.seen[i] newEnv with hh | hh
    · rw [hh]; rfl
    · rw [hh, ← hid]
  simp only [resolveDifferencesInBackground, List.getElem?_eq_getElem h]
  split <;> rename_i heq
  · constructor
    · rw [check_seen]
      exact map_set_same envIdC st.seen i _ h hold
    · exact check_no_yield _
  · constructor
    · rw [check_seen]
      show ((st.seen.set i _).set i _).map envIdC = _
      rw [List.set_set]
      exact map_set_same envIdC st.seen i _ h hmerged
    · rw [List.filterMap_append]
      rw [check_no_yield]
      split <;> rfl

theorem reducerStep_progress_other_general (st : RState) (stage : ProgressStage)
    (hup : st.upAttached = true) (hs : stage ≠ ProgressStage.finished) :
    reducerStep st (UpMsg.notify (UpEvent.progress stage)) =
      Except.ok ((checkIfFinishedAndNotify { st with pending := st.pending + 1 - 1 }).1,
        (if st.downOpen then [ROut.fire (DownEvent.progress stage)] else []) ++
          (checkIfFinishedAndNotify { st with pending := st.pending + 1 - 1 }).2) := by
  simp [reducerStep, hup, hs]

theorem reducerStep_update_inrange_general (st : RState) (idx : Nat)
    (o : Option BasicEnvInfo) (u : BasicEnvInfo) (oldEnv : CompositeEnvInfo)
    (hup : st.upAttached = true) (hg : st.seen[idx]? = some oldEnv) :
    reducerStep st (UpMsg.notify (UpEvent.update idx o (some u))) =
      Except.ok ((checkIfFinishedAndNotify { st with seen := st.seen.set idx (convertBasicToComposite u), pending := st.pending + 1 - 1 }).1,
        (if st.downOpen then [ROut.fire (DownEvent.update idx oldEnv (convertBasicToComposite u))] else []) ++
          (checkIfFinishedAndNotify { st with seen := st.seen.set idx (convertBasicToComposite u), pending := st.pending + 1 - 1 }).2) := by
  simp [reducerStep, hup, hg]

theorem reducerStep_update_outrange_general (st : RState) (idx : Nat)
    (o : Option BasicEnvInfo) (u : BasicEnvInfo)
    (hup : st.upAttached = true) (hg : st.seen[idx]? = none) :
    reducerStep st (UpMsg.notify (UpEvent.update idx o (some u))) =
      Except.ok ((checkIfFinishedAndNotify { st with pending := st.pending + 1 - 1 }).1,
        ROut.log idx ::
          (checkIfFinishedAndNotify { st with pending := st.pending + 1 - 1 }).2) := by
  simp [reducerStep, hup, hg]

theorem reducerStep_notify_ids (st : RState) (ev : UpEvent) (st1 : RState)
    (outs : List ROut) (h : reducerStep st (UpMsg.notify ev) = Except.ok (st1, outs))
    (hkeep : updKeepsId st (UpMsg.notify ev) = true) :
    st1.seen.map envIdC = st.seen.map envIdC ∧ outs.filterMap yieldOf = [] := by
  cases hup : st.upAttached
  · rw [reducerStep_notify_detached st ev hup] at h
    simp only [Except.ok.injEq, Prod.mk.injEq] at h
    obtain ⟨rfl, rfl⟩ := h
    exact ⟨rfl, rfl⟩
  · cases ev with
    | progress stage =>
      cases stage with
      | started =>
        rw [reducerStep_progress_other_general st ProgressStage.started hup
          (fun hc => ProgressStage.noConfusion hc)] at h
        simp only [Except.ok.injEq, Prod.mk.injEq] at h
        obtain ⟨rfl, rfl⟩ := h
        refine ⟨by rw [check_seen], ?_⟩
        rw [List.filterMap_append, check_no_yield]
        split <;> rfl
      | finished =>
        rw [reducerStep_finished st hup] at h
        rcases hch : checkIfFinishedAndNotify { st with done := true, upAttached := false, pending := st.pending + 1 - 1 } with ⟨cs, co⟩
        rw [hch] at h
        simp only [Except.ok.injEq, Prod.mk.injEq] at h
        obtain ⟨rfl, rfl⟩ := h
        have h1 := congrArg Prod.fst hch
        have h2 := congrArg Prod.snd hch
        dsimp only at h1 h2
        rw [← h1, ← h2]
        exact ⟨by rw [check_seen], check_no_yield _⟩
    | update idx o upd =>
      cases upd with
      | none =>
        rw [reducerStep_update_undefined st idx o hup] at h
        cases h
      | some u =>
        rcases hg : st.seen[idx]? with _ | oldEnv
        · rw [reducerStep_update_outrange_general st idx o u hup hg] at h
          simp only [Except.ok.injEq, Prod.mk.injEq] at h
          obtain ⟨rfl, rfl⟩ := h
          refine ⟨by rw [check_seen], ?_⟩
          rw [List.filterMap_cons]
          exact check_no_yield _
        · obtain ⟨hlt, hgm⟩ := List.getElem?_eq_some.mp hg
          rw [reducerStep_update_inrange_general st idx o u oldEnv hup hg] at h
          simp only [Except.ok.injEq, Prod.mk.injEq] at h
          obtain ⟨rfl, rfl⟩ := h
          have hkeep2 : areSameEnv (convertBasicToComposite u) oldEnv = true := by
            simp only [updKeepsId, hup, hg] at hkeep
            simpa using hkeep
          constructor
          · rw [check_seen]
            show (st.seen.set idx (convertBasicToComposite u)).map envIdC = _
            refine map_set_same envIdC st.seen idx _ hlt ?_
            have hsame := (areSameEnv_iff _ _).mp hkeep2
            rw [hsame, ← hgm]
            rfl
          · rw [List.filterMap_append, check_no_yield]
            split <;> rfl

/-! ## First-seen order lemmas -/

theorem firstSeenAux_congr : ∀ (l : List BasicEnvInfo)
    (ids1 ids2 : List (String × Option String)),
    (∀ x, x ∈ ids1 ↔ x ∈ ids2) → firstSeenAux ids1 l = firstSeenAux ids2 l := by
  intro l
  induction l with
  | nil => intro _ _ _; rfl
  | cons r rs ih =>
    intro ids1 ids2 hiff
    simp only [firstSeenAux]
    by_cases hm : envIdB r ∈ ids1
    · rw [if_pos hm, if_pos ((hiff _).mp hm), ih ids1 ids2 hiff]
    · rw [if_neg hm, if_neg (fun hc => hm ((hiff _).mpr hc)),
        ih (envIdB r :: ids1) (envIdB r :: ids2)
          (fun x => by simp [List.mem_cons, hiff x])]

theorem firstSeenAux_pairwise : ∀ (l : List BasicEnvInfo)
    (ids : List (String × Option String)),
    (∀ r ∈ firstSeenAux ids l, envIdB r ∉ ids) ∧
      (firstSeenAux ids l).Pairwise (fun a b => envIdB a ≠ envIdB b) := by
  intro l
  induction l with
  | nil => intro ids; exact ⟨by simp [firstSeenAux], by simp [firstSeenAux]⟩
  | cons r rs ih =>
    intro ids
    simp only [firstSeenAux]
    by_cases hm : envIdB r ∈ ids
    · rw [if_pos hm]; exact ih ids
    · rw [if_neg hm]
      obtain ⟨hmem, hpw⟩ := ih (envIdB r :: ids)
      constructor
      · intro x hx
        cases List.mem_cons.mp hx with
        | inl he => subst he; exact hm
        | inr ht =>
          intro hc
          exact (hmem x ht) (List.mem_cons.mpr (Or.inr hc))
      · refine List.Pairwise.cons ?_ hpw
        intro b hb hc
        exact hmem b hb (by rw [← hc]; exact List.mem_cons_self _ _)

theorem firstSeenAux_of_distinct : ∀ (l : List BasicEnvInfo)
    (ids : List (String × Option String)),
    (∀ r ∈ l, envIdB r ∉ ids) →
    l.Pairwise (fun a b => envIdB a ≠ envIdB b) →
    firstSeenAux ids l = l := by
  intro l
  induction l with
  | nil => intro _ _ _; rfl
  | cons r rs ih =>
    intro ids hnm hpw
    simp only [firstSeenAux]
    rw [if_neg (hnm r (List.mem_cons_self _ _))]
    obtain ⟨hr, hpw2⟩ := List.pairwise_cons.mp hpw
    rw [ih (envIdB r :: ids) ?_ hpw2]
    intro x hx
    simp only [List.mem_cons]
    push_neg
    exact ⟨fun hc => (hr x hx) hc.symm, hnm x (List.mem_cons.mpr (Or.inr hx))⟩

/-! ## The first-seen invariant of the reducer -/

theorem runFrom_firstSeen (msgs : List UpMsg) : ∀ st : RState,
    noUndefinedUpdates msgs = true → updatesPreserveIdsFrom st msgs = true →
    ∃ st1 outs, runFrom st msgs = Except.ok (st1, outs) ∧
      st1.seen.map envIdC = st.seen.map envIdC ++
        (firstSeenAux (st.seen.map envIdC) (recordsOf msgs)).map envIdB ∧
      outs.filterMap yieldOf =
        (firstSeenAux (st.seen.map envIdC) (recordsOf msgs)).map convertBasicToComposite := by
  induction msgs with
  | nil =>
    intro st _ _
    exact ⟨st, [], rfl, by simp [recordsOf, firstSeenAux],
      by simp [recordsOf, firstSeenAux]⟩
  | cons m rest ih =>
    intro st hnu hpres
    simp only [noUndefinedUpdates, List.all_cons, Bool.and_eq_true] at hnu
    have hnur : noUndefinedUpdates rest = true := by
      simp [noUndefinedUpdates, hnu.2]
    simp only [updatesPreserveIdsFrom, Bool.and_eq_true] at hpres
    obtain ⟨hkeep, hpres1⟩ := hpres
    cases m with
    | yieldEnv e =>
      have hrec : recordsOf (UpMsg.yieldEnv e :: rest) = e :: recordsOf rest := rfl
      cases hf : findIndex (fun s => areSameEnv s (convertBasicToComposite e)) st.seen with
      | none =>
        have hstep := reducerStep_yield_new st e hf
        rw [hstep] at hpres1
        dsimp only at hpres1
        obtain ⟨st2, outs2, hrun2, hids2, hy2⟩ := ih _ hnur hpres1
        have hnotmem : envIdB e ∉ st.seen.map envIdC := by
          intro hc
          obtain ⟨x, hx, hxe⟩ := List.mem_map.mp hc
          have hfa := (findIndex_none_spec _ st.seen).mp hf x hx
          rw [areSameEnv_false_iff] at hfa
          exact hfa (by rw [hxe]; rfl)
        have hids' : ({ st with seen := st.seen ++ [convertBasicToComposite e] } : RState).seen.map envIdC
            = st.seen.map envIdC ++ [envIdB e] := by
          simp [envIdC_convert]
        rw [hids'] at hids2 hy2
        have hcongr := firstSeenAux_congr (recordsOf rest)
          (st.seen.map envIdC ++ [envIdB e]) (envIdB e :: st.seen.map envIdC)
          (fun x => by simp [List.mem_append, List.mem_cons, or_comm])
        rw [hcongr] at hids2 hy2
        refine ⟨st2, ROut.yieldPrim (convertBasicToComposite e) :: outs2, ?_, ?_, ?_⟩
        · simp [runFrom, hstep, hrun2]
        · rw [hids2, hrec]
          simp only [firstSeenAux]
          rw [if_neg hnotmem]
          simp [List.append_assoc]
        · rw [hrec]
          simp only [firstSeenAux]
          rw [if_neg hnotmem]
          simp only [List.filterMap_cons, List.map_cons]
          rw [← hy2]
          rfl
      | some i =>
        obtain ⟨hi, hp⟩ := findIndex_some_spec _ st.seen i hf
        have hid : envIdC (st.seen.get ⟨i, hi⟩) = envIdC (convertBasicToComposite e) :=
          (areSameEnv_iff _ _).mp hp
        have hpair := resolveDifferences_ids i (convertBasicToComposite e) st hi hid
        rcases hrd : resolveDifferencesInBackground i (convertBasicToComposite e) st
          with ⟨stM, outsM⟩
        rw [hrd] at hpair
        dsimp only at hpair
        obtain ⟨hidsM, hyM⟩ := hpair
        have hstep : reducerStep st (UpMsg.yieldEnv e) = Except.ok (stM, outsM) := by
          rw [reducerStep_yield_dup st e i hf, hrd]
        rw [hstep] at hpres1
        dsimp only at hpres1
        obtain ⟨st2, outs2, hrun2, hids2, hy2⟩ := ih _ hnur hpres1
        rw [hidsM] at hids2 hy2
        have hmem : envIdB e ∈ st.seen.map envIdC := by
          rw [← envIdC_convert e, ← hid]
          exact List.mem_map.mpr ⟨st.seen.get ⟨i, hi⟩, List.get_mem st.seen i hi, rfl⟩
        refine ⟨st2, outsM ++ outs2, ?_, ?_, ?_⟩
        · simp [runFrom, hstep, hrun2]
        · rw [hids2, hrec]
          simp only [firstSeenAux]
          rw [if_pos hmem]
        · rw [List.filterMap_append, hyM, hy2, hrec]
          simp only [firstSeenAux]
          rw [if_pos hmem]
          rfl
    | notify ev =>
      have hrec : recordsOf (UpMsg.notify ev :: rest) = recordsOf rest := rfl
      obtain ⟨⟨stN, outsN⟩, hstep⟩ := reducerStep_ok_of_noUndef st (UpMsg.notify ev) hnu.1
      obtain ⟨hidsN, hyN⟩ := reducerStep_notify_ids st ev stN outsN hstep hkeep
      rw [hstep] at hpres1
      dsimp only at hpres1
      obtain ⟨st2, outs2, hrun2, hids2, hy2⟩ := ih _ hnur hpres1
      rw [hidsN] at hids2 hy2
      refine ⟨st2, outsN ++ outs2, ?_, ?_, ?_⟩
      · simp [runFrom, hstep, hrun2]
      · rw [hids2, hrec]
      · rw [List.filterMap_append, hyN, hy2, hrec]
        rfl

theorem run_yields_outs (hasUpd : Bool) (msgs : List UpMsg) (st : RState)
    (outs : List ROut) (h : runFrom (initState hasUpd) msgs = Except.ok (st, outs)) :
    primYields hasUpd msgs = outs.filterMap yieldOf := by
  cases hasUpd
  · simp only [primYields, run, h]
    simp [List.filterMap_cons, List.filterMap_append, check_no_yield, yieldOf]
  · simp [primYields, run, h]

/-! ## Claim C1 -/

/-- C1 counterexample.  A fully spec-legal upstream (the update refines its
own upstream record #1 in place, preserving that record's identity) makes the
reducer's primary sequence yield two records with the same identity: the
index-conflated update (see C5) overwrites the reducer's identity-b buffer
entry with an identity-a record, so a later b-record no longer matches
anything in the buffer and is yielded a second time. -/
theorem c1_duplicate_identity_counterexample :
    ¬ (primYields true [UpMsg.yieldEnv ⟨"a", none, some "venv", "x"⟩,
        UpMsg.yieldEnv ⟨"a", none, some "system", "y"⟩,
        UpMsg.yieldEnv ⟨"b", none, some "conda", "x"⟩,
        UpMsg.notify (UpEvent.update 1 none (some ⟨"a", none, some "pyenv", "z"⟩)),
        UpMsg.yieldEnv ⟨"b", none, some "venv", "w"⟩]).Pairwise
      (fun a b => areSameEnv a b = false) := by
  decide

/-- C1 amended: provided every upstream update event preserves the identity
of the reducer-buffer record it replaces (the spec's "refined in place"
reading — which upstream-index conflation can violate even for a
well-behaved upstream, see the counterexample), no two records yielded on
the reducer's primary sequence share an identity. -/
theorem c1_no_duplicate_identities (hasUpd : Bool) (msgs : List UpMsg)
    (hnu : noUndefinedUpdates msgs = true)
    (hpres : updatesPreserveIdsFrom (initState hasUpd) msgs = true) :
    (primYields hasUpd msgs).Pairwise (fun a b => areSameEnv a b = false) := by
  obtain ⟨st1, outs, hrun, hids, hy⟩ := runFrom_firstSeen msgs (initState hasUpd) hnu hpres
  rw [run_yields_outs hasUpd msgs st1 outs hrun, hy]
  rw [List.pairwise_map]
  have hpw := (firstSeenAux_pairwise (recordsOf msgs) ((initState hasUpd).seen.map envIdC)).2
  refine hpw.imp ?_
  intro a b hab
  rw [areSameEnv_false_iff, envIdC_convert, envIdC_convert]
  exact hab

/-- Witness for C1 at a concrete trace with a duplicate incoming record and
an identity-preserving update. -/
theorem c1_no_duplicate_identities_witness :
    noUndefinedUpdates [UpMsg.yieldEnv ⟨"a", none, some "venv", "x"⟩,
        UpMsg.yieldEnv ⟨"a", none, some "system", "y"⟩,
        UpMsg.notify (UpEvent.update 0 none (some ⟨"a", none, some "pyenv", "z"⟩)),
        UpMsg.yieldEnv ⟨"b", none, some "conda", "x"⟩] = true ∧
      updatesPreserveIdsFrom (initState true)
        [UpMsg.yieldEnv ⟨"a", none, some "venv", "x"⟩,
          UpMsg.yieldEnv ⟨"a", none, some "system", "y"⟩,
          UpMsg.notify (UpEvent.update 0 none (some ⟨"a", none, some "pyenv", "z"⟩)),
          UpMsg.yieldEnv ⟨"b", none, some "conda", "x"⟩] = true ∧
      (primYields true [UpMsg.yieldEnv ⟨"a", none, some "venv", "x"⟩,
          UpMsg.yieldEnv ⟨"a", none, some "system", "y"⟩,
          UpMsg.notify (UpEvent.update 0 none (some ⟨"a", none, some "pyenv", "z"⟩)),
          UpMsg.yieldEnv ⟨"b", none, some "conda", "x"⟩]).Pairwise
        (fun a b => areSameEnv a b = false) :=
  ⟨by decide, by decide, c1_no_duplicate_identities true _ (by decide) (by decide)⟩

/-! ## Claim C4 -/

/-- C4: provided upstream update events preserve the identity of the buffer
record they replace (in particular for any trace without update events), the
reducer's primary sequence is exactly the converted first occurrence of each
distinct identity, in first-observed order; when the upstream records'
identities are pairwise distinct this is exactly the upstream order, one
output per input. -/
theorem c4_first_seen_order (hasUpd : Bool) (msgs : List UpMsg)
    (hnu : noUndefinedUpdates msgs = true)
    (hpres : updatesPreserveIdsFrom (initState hasUpd) msgs = true) :
    primYields hasUpd msgs = (firstSeen (recordsOf msgs)).map convertBasicToComposite ∧
    ((recordsOf msgs).Pairwise (fun a b => envIdB a ≠ envIdB b) →
      primYields hasUpd msgs = (recordsOf msgs).map convertBasicToComposite) := by
  obtain ⟨st1, outs, hrun, hids, hy⟩ := runFrom_firstSeen msgs (initState hasUpd) hnu hpres
  have heq : primYields hasUpd msgs =
      (firstSeen (recordsOf msgs)).map convertBasicToComposite := by
    rw [run_yields_outs hasUpd msgs st1 outs hrun]
    exact hy
  refine ⟨heq, fun hdist => ?_⟩
  rw [heq]
  rw [show firstSeen (recordsOf msgs) = firstSeenAux [] (recordsOf msgs) from rfl]
  rw [firstSeenAux_of_distinct (recordsOf msgs) [] (by simp) hdist]

/-- Witness for C4 at a concrete trace of three distinct-identity records
interleaved with a progress notification. -/
theorem c4_first_seen_order_witness :
    noUndefinedUpdates [UpMsg.yieldEnv ⟨"a", none, some "venv", "x"⟩,
        UpMsg.notify (UpEvent.progress ProgressStage.started),
        UpMsg.yieldEnv ⟨"b", none, some "conda", "y"⟩,
        UpMsg.yieldEnv ⟨"c", none, some "system", "z"⟩] = true ∧
      updatesPreserveIdsFrom (initState true)
        [UpMsg.yieldEnv ⟨"a", none, some "venv", "x"⟩,
          UpMsg.notify (UpEvent.progress ProgressStage.started),
          UpMsg.yieldEnv ⟨"b", none, some "conda", "y"⟩,
          UpMsg.yieldEnv ⟨"c", none, some "system", "z"⟩] = true ∧
      (recordsOf [UpMsg.yieldEnv ⟨"a", none, some "venv", "x"⟩,
          UpMsg.notify (UpEvent.progress ProgressStage.started),
          UpMsg.yieldEnv ⟨"b", none, some "conda", "y"⟩,
          UpMsg.yieldEnv ⟨"c", none, some "system", "z"⟩]).Pairwise
        (fun a b => envIdB a ≠ envIdB b) ∧
      primYields true [UpMsg.yieldEnv ⟨"a", none, some "venv", "x"⟩,
          UpMsg.notify (UpEvent.progress ProgressStage.started),
          UpMsg.yieldEnv ⟨"b", none, some "conda", "y"⟩,
          UpMsg.yieldEnv ⟨"c", none, some "system", "z"⟩] =
        (recordsOf [UpMsg.yieldEnv ⟨"a", none, some "venv", "x"⟩,
          UpMsg.notify (UpEvent.progress ProgressStage.started),
          UpMsg.yieldEnv ⟨"b", none, some "conda", "y"⟩,
          UpMsg.yieldEnv ⟨"c", none, some "system", "z"⟩]).map convertBasicToComposite :=
  ⟨by decide, by decide, by decide,
    (c4_first_seen_order true _ (by decide) (by decide)).2 (by decide)⟩
